import Mathlib

/-!
# Verification of the chunked-upload core of `django-admin-async-upload`

This file gives a shallow embedding of `admin_async_upload/files.py`
(class `ResumableFile`) together with the Python / Django library
functions it calls (`os.path.basename`, `posixpath.split`,
`posixpath.join`, `str.zfill`, `fnmatch.fnmatch`, `sorted`, Django's
`Storage.get_valid_name` / `get_available_name` / `save` / `delete` /
`listdir`), and proves or refutes the frozen claims about it.

Modelling conventions:

* Byte strings are `List Nat`; their numeric values are never
  interpreted, only concatenated and measured.
* A storage backend is a finite association list `Store` from keys
  (full path strings) to contents, first binding wins.  `listdir d`
  returns the base names of the keys whose directory part is `d`,
  `save` resolves the key through `get_available_name` and prepends,
  `delete` removes the binding and is a no-op on an absent key
  (Django's `FileSystemStorage.delete` swallows `FileNotFoundError`).
* The wire parameters (`resumableFilename`, `resumableTotalSize`,
  `resumableChunkNumber`, `resumableCurrentChunkSize`) are modelled as
  optional values; an integer parameter is carried as a `Nat` and its
  wire string is its canonical decimal rendering `natToDec` (the client
  sends `str(n)`), so `int(...)` round-trips are implicit.  Non-canonical
  decimal strings such as `"007"` are outside the model.
* Python exceptions become the `UploadError` sum: the generic
  `Exception("Invalid filename")` / `Exception("Chunk(s) still missing")`
  / `ValueError` raised by `files.py` correspond to the spec taxonomy
  `InvalidFilenameError` / `IncompleteUploadError` / `ConfigurationError`;
  backend I/O failures (the spec's `StorageError`) are injected through
  the `saveFails` / `failDeletes` fields of `World`.
* Exceptions that leave earlier side effects in place are modelled by
  `CollectResult`, which carries the final state in both outcomes.
* `fnmatch` bracket character classes are not modelled: `[` is treated
  as a literal character.  No pattern built by `chunk_names` from a
  bracket-free file name contains one, and every theorem below either
  restricts the name to glob-metacharacter-free strings (covering `[`)
  or uses concrete patterns without brackets, so no statement depends
  on bracket semantics.
-/

/-! ## Python string primitives -/

/-- Lexicographic strict comparison of character lists by code point,
the order Python string comparison uses. -/
def charsLt : List Char → List Char → Bool
  | _, [] => false
  | [], _ :: _ => true
  | a :: as, b :: bs =>
    if a < b then true
    else if b < a then false
    else charsLt as bs

/-- Python `a < b` on strings. -/
def strLt (a b : String) : Bool := charsLt a.data b.data

/-- Python `a <= b` on strings (total order used by `sorted`). -/
def strLe (a b : String) : Bool := ! charsLt b.data a.data

/-- The proposition form of `strLe`, used to state sortedness. -/
def strLeP (a b : String) : Prop := strLe a b = true

/-- Insert a string into a `strLe`-sorted list. -/
def insertStr (x : String) : List String → List String
  | [] => [x]
  | y :: ys => if strLe x y then x :: y :: ys else y :: insertStr x ys

/-- Python `sorted` on a list of strings (ascending, lexicographic by
code point), as an insertion sort. -/
def pySorted : List String → List String
  | [] => []
  | x :: xs => insertStr x (pySorted xs)

/-- Continuation used for a `*` wildcard: try to match the rest of the
pattern against every suffix of the string. -/
def globStar (k : List Char → Bool) : List Char → Bool
  | [] => k []
  | c :: cs => k (c :: cs) || globStar k cs

/-- `fnmatch`-style glob matching: `*` matches any sequence, `?` any
single character, every other character (including `[`, see the header
note) matches itself.  First argument is the pattern, second the name. -/
def globMatch : List Char → List Char → Bool
  | [], s => s.isEmpty
  | c :: ps, s =>
    if c = '*' then globStar (globMatch ps) s
    else if c = '?' then
      match s with
      | [] => false
      | _ :: cs => globMatch ps cs
    else
      match s with
      | [] => false
      | d :: cs => (c == d) && globMatch ps cs

/-- Python `fnmatch.fnmatch(name, pat)` (POSIX, no case folding). -/
def fnmatch (name pat : String) : Bool := globMatch pat.data name.data

/-- Characters after the last `/` (the whole list when there is none):
`p[p.rfind(sep) + 1:]`. -/
def pathTail (cs : List Char) : List Char :=
  (cs.reverse.takeWhile (fun c => ! decide (c = '/'))).reverse

/-- Characters up to and including the last `/`: `p[:p.rfind(sep) + 1]`. -/
def pathHead0 (cs : List Char) : List Char :=
  cs.take (cs.length - (pathTail cs).length)

/-- The head of `posixpath.split`: trailing slashes stripped unless the
head is empty or consists only of slashes. -/
def pathHead (cs : List Char) : List Char :=
  if (pathHead0 cs).isEmpty || (pathHead0 cs).all (fun c => decide (c = '/')) then pathHead0 cs
  else ((pathHead0 cs).reverse.dropWhile (fun c => decide (c = '/'))).reverse

/-- Python `os.path.basename` (POSIX): everything after the last `/`. -/
def pyBasename (p : String) : String := String.mk (pathTail p.data)

/-- Python `posixpath.split`: split at the last `/`; the head keeps no
trailing slashes unless it consists only of slashes. -/
def pySplitPath (p : String) : String × String :=
  (String.mk (pathHead p.data), String.mk (pathTail p.data))

/-- Python `posixpath.join` restricted to two components, which is the
only way `files.py` uses it. -/
def pjoin (a b : String) : String :=
  if b.data.head? = some '/' then b
  else if a = "" then a ++ b
  else if a.data.getLast? = some '/' then a ++ b
  else a ++ "/" ++ b

/-- Decimal digit character. -/
def dig : Nat → Char
  | 0 => '0'
  | 1 => '1'
  | 2 => '2'
  | 3 => '3'
  | 4 => '4'
  | 5 => '5'
  | 6 => '6'
  | 7 => '7'
  | 8 => '8'
  | 9 => '9'
  | _ => '0'

/-- Fuel-driven most-significant-first decimal digits (the fuel makes
the recursion structural, hence kernel-reducible; `natToDec` always
supplies enough fuel). -/
def decDigitsAux : Nat → Nat → List Char
  | 0, _ => []
  | fuel + 1, n => if n < 10 then [dig n] else decDigitsAux fuel (n / 10) ++ [dig (n % 10)]

/-- Decimal digits of `n`, most significant first. -/
def decDigits (n : Nat) : List Char := decDigitsAux (n + 1) n

/-- Python `str(n)` for a nonnegative integer. -/
def natToDec (n : Nat) : String := String.mk (decDigits n)

/-- Python `str.zfill` for an unsigned string: left-pad with `'0'` to
width `w` (the sign handling of `zfill` is irrelevant here, chunk
numbers and sizes are nonnegative). -/
def zfill (w : Nat) (s : String) : String :=
  if s.length < w then String.mk (List.replicate (w - s.length) '0') ++ s else s

/-! ## Django storage primitives -/

/-- A storage backend state: association list from key (full path) to
stored bytes; the first binding for a key wins. -/
abbrev Store := List (String × List Nat)

/-- Keys currently stored. -/
def storeKeys (cs : Store) : List String := cs.map (fun e => e.1)

/-- Bytes stored at a key, if present. -/
def storeLookup (cs : Store) (k : String) : Option (List Nat) :=
  match cs with
  | [] => none
  | e :: rest => if e.1 = k then some e.2 else storeLookup rest k

/-- Remove every binding for a key (`Storage.delete`; no-op if absent,
matching Django's `FileSystemStorage.delete` ignoring a missing file). -/
def storeErase (cs : Store) (k : String) : Store :=
  cs.filter (fun e => ! decide (e.1 = k))

/-- `Storage.size`.  Django raises on an absent key; every call site in
this development passes keys obtained from the listing, which are
present (`storeLookup` returns `some`), so the `getD` default is
unreachable there. -/
def storeSize (cs : Store) (k : String) : Nat := ((storeLookup cs k).getD []).length

/-- `Storage.open(..).read()`.  Same presence remark as `storeSize`. -/
def storeContents (cs : Store) (k : String) : List Nat := (storeLookup cs k).getD []

/-- `Storage.listdir(dir)[1]`: base names of the stored keys whose
directory part is `dir`. -/
def listdirFiles (cs : Store) (dir : String) : List String :=
  cs.filterMap (fun e =>
    if (pySplitPath e.1).1 = dir then some (pySplitPath e.1).2 else none)

/-- Candidate alternative name used while resolving a collision. -/
def altName (name : String) (i : Nat) : String := name ++ "_" ++ natToDec i

/-- Fuel-driven search for a free alternative name. -/
def availLoop (keys : List String) (name : String) : Nat → Nat → String
  | 0, i => altName name i
  | fuel + 1, i => if altName name i ∈ keys then availLoop keys name fuel (i + 1) else altName name i

/-- Django `Storage.get_available_name`: return `name` if it is free,
otherwise some fresh name.  Django appends a random suffix; the model
searches deterministically (`name_1`, `name_2`, …), which is an
equally collision-free choice, and no claim depends on the renaming
scheme. -/
def availableName (keys : List String) (name : String) : String :=
  if name ∈ keys then availLoop keys name (keys.length + 1) 1 else name

/-- A character kept by Django `Storage.get_valid_name` (ASCII
approximation of the regex `[^-\w.]` removal: word characters,
hyphen, dot survive). -/
def validChar (c : Char) : Bool := c.isAlphanum || c = '_' || c = '-' || c = '.'

/-- Django `Storage.get_valid_name`: strip surrounding whitespace, turn
interior spaces into underscores, drop every other invalid character. -/
def getValidName (s : String) : String :=
  let t := ((s.data.dropWhile Char.isWhitespace).reverse.dropWhile Char.isWhitespace).reverse
  String.mk ((t.map (fun c => if c = ' ' then '_' else c)).filter validChar)

/-! ## The data model of `files.py` -/

/-- The errors the core can raise, following the spec's taxonomy (the
source raises plain `Exception` / `ValueError` with the corresponding
messages). -/
inductive UploadError where
  | invalidFilename
  | incompleteUpload
  | configuration
  | storage (op : String) (key : String)
deriving DecidableEq

/-- The `upload_to` attribute of the model field: a static string, a
callable, or anything else (rejected).  The callable receives
`(None, filename)` in the source; the discarded `None` instance
argument is not modelled. -/
inductive UploadTo where
  | str (s : String)
  | call (g : String → String)
  | invalid

/-- The per-request upload parameters (`self.params`), field names as
on the wire.  `none` models an absent key. -/
structure Params where
  resumableFilename : Option String
  resumableTotalSize : Option Nat
  resumableChunkNumber : Option Nat
  resumableCurrentChunkSize : Option Nat
  resumableType : Option String
deriving DecidableEq

/-- `params.get("resumableTotalSize", "0")` (string form). -/
def totalSizeStr (p : Params) : String :=
  match p.resumableTotalSize with
  | some n => natToDec n
  | none => "0"

/-- `int(params.get("resumableTotalSize", 0))`. -/
def totalSizeInt (p : Params) : Nat := p.resumableTotalSize.getD 0

/-- `params.get("resumableChunkNumber", "1")`. -/
def chunkNumberStr (p : Params) : String :=
  match p.resumableChunkNumber with
  | some n => natToDec n
  | none => "1"

/-- `self.chunk_suffix`. -/
def chunkSuffix : String := "_part_"

/-- `f"user_{user.id}" if user else "anonymous"`; a present user is
reduced to their id. -/
def userDirOf : Option Nat → String
  | some i => "user_" ++ natToDec i
  | none => "anonymous"

/-- The `ResumableFile` instance data: the field's `upload_to`
configuration, the (optional) user id, the request parameters, and the
`ADMIN_RESUMABLE_CHUNKS_SUBDIRECTORY` setting (default `"chunks"`). -/
structure ResumableFile where
  uploadTo : UploadTo
  userId : Option Nat
  params : Params
  chunks_subdirectory : String := "chunks"

/-- `ResumableFile.filename`: base name of the declared filename,
rejected when empty, prefixed with the raw declared total size. -/
def ResumableFile.filename (r : ResumableFile) : Except UploadError String :=
  let f := pyBasename (r.params.resumableFilename.getD "")
  if f = "" then Except.error UploadError.invalidFilename
  else Except.ok (totalSizeStr r.params ++ "_" ++ f)

/-- `ResumableFile.current_chunk_name`:
`chunks_subdirectory/user_dir/{filename}_part_{chunkNumber.zfill(4)}`. -/
def ResumableFile.current_chunk_name (r : ResumableFile) : Except UploadError String :=
  match r.filename with
  | Except.error e => Except.error e
  | Except.ok f =>
    let sub := pjoin r.chunks_subdirectory (userDirOf r.userId)
    Except.ok (pjoin sub (f ++ chunkSuffix ++ zfill 4 (chunkNumberStr r.params)))

/-- `ResumableFile.chunk_names`: list the chunk directory, keep the
files `fnmatch`-matching `{filename}{chunk_suffix}*`, rejoin with the
directory and sort. -/
def ResumableFile.chunk_names (r : ResumableFile) (cs : Store) : Except UploadError (List String) :=
  match r.filename with
  | Except.error e => Except.error e
  | Except.ok f =>
    match r.current_chunk_name with
    | Except.error e => Except.error e
    | Except.ok ccn =>
      let dir := (pySplitPath ccn).1
      let files := listdirFiles cs dir
      let pat := f ++ chunkSuffix ++ "*"
      Except.ok (pySorted ((files.filter (fun file => fnmatch file pat)).map
        (fun file => pjoin dir file)))

/-- `ResumableFile.chunk_exists`: the current chunk is stored with
exactly the declared current-chunk size. -/
def ResumableFile.chunk_exists (r : ResumableFile) (cs : Store) : Except UploadError Bool :=
  match r.current_chunk_name with
  | Except.error e => Except.error e
  | Except.ok name =>
    Except.ok ((storeLookup cs name).isSome &&
      decide (storeSize cs name = r.params.resumableCurrentChunkSize.getD 0))

/-- `ResumableFile.size`: total byte size of the listed chunks. -/
def ResumableFile.size (r : ResumableFile) (cs : Store) : Except UploadError Nat :=
  match r.chunk_names cs with
  | Except.error e => Except.error e
  | Except.ok ns => Except.ok (ns.foldl (fun acc n => acc + storeSize cs n) 0)

/-- `ResumableFile.is_complete`: declared total equals the stored sum. -/
def ResumableFile.is_complete (r : ResumableFile) (cs : Store) : Except UploadError Bool :=
  match r.size cs with
  | Except.error e => Except.error e
  | Except.ok s => Except.ok (decide (totalSizeInt r.params = s))

/-- `ResumableFile.chunks`: contents of the listed chunks, in listing
order. -/
def ResumableFile.chunks (r : ResumableFile) (cs : Store) : Except UploadError (List (List Nat)) :=
  match r.chunk_names cs with
  | Except.error e => Except.error e
  | Except.ok ns => Except.ok (ns.map (fun n => storeContents cs n))

/-- `ResumableFile.file`: refuse if incomplete, otherwise write every
chunk in listing order into the output (sequential writes are the left
fold of concatenation). -/
def ResumableFile.file (r : ResumableFile) (cs : Store) : Except UploadError (List Nat) :=
  match r.is_complete cs with
  | Except.error e => Except.error e
  | Except.ok b =>
    if b then
      match r.chunks cs with
      | Except.error e => Except.error e
      | Except.ok parts => Except.ok (parts.foldl (fun acc p => acc ++ p) [])
    else Except.error UploadError.incompleteUpload

/-- `ResumableFile.process_chunk`: delete an existing chunk at the
current chunk name, then `save` (which resolves the now-free name
through `get_available_name`). -/
def ResumableFile.process_chunk (r : ResumableFile) (cs : Store) (content : List Nat) :
    Except UploadError Store :=
  match r.current_chunk_name with
  | Except.error e => Except.error e
  | Except.ok name =>
    let cs1 := if (storeLookup cs name).isSome then storeErase cs name else cs
    Except.ok ((availableName (storeKeys cs1) name, content) :: cs1)

/-- Shared tail of `storage_filename`: split the raw path, sanitize the
base name, rejoin, and resolve to an available name. -/
def resolveStoragePath (keys : List String) (raw : String) : String :=
  let p := pySplitPath raw
  availableName keys (pjoin p.1 (getValidName p.2))

/-- `ResumableFile.storage_filename`: dispatch on `upload_to`
(callable / static string / neither), then sanitize and resolve.
`keys` are the keys of the persistent storage. -/
def ResumableFile.storage_filename (r : ResumableFile) (keys : List String) :
    Except UploadError String :=
  match r.filename with
  | Except.error e => Except.error e
  | Except.ok f =>
    match r.uploadTo with
    | UploadTo.call g => Except.ok (resolveStoragePath keys (g f))
    | UploadTo.str s => Except.ok (resolveStoragePath keys (pjoin s f))
    | UploadTo.invalid => Except.error UploadError.configuration

/-- Delete the named chunks in order, stopping with a storage error at
the first name in `fails` (the injected backend failures); the store
reflects the deletions performed before the failure. -/
def deleteList (fails : List String) (cs : Store) : List String → Option UploadError × Store
  | [] => (none, cs)
  | k :: ks =>
    if k ∈ fails then (some (UploadError.storage "delete" k), cs)
    else deleteList fails (storeErase cs k) ks

/-- `ResumableFile.delete_chunks`: delete every listed chunk, in listing
order. -/
def ResumableFile.delete_chunks (r : ResumableFile) (fails : List String) (cs : Store) :
    Option UploadError × Store :=
  match r.chunk_names cs with
  | Except.error e => (some e, cs)
  | Except.ok ns => deleteList fails cs ns

/-- The world a commit acts on: transient chunk store, persistent file
store, and the injected backend failures (`saveFails`: the persistent
`save` raises; `failDeletes`: chunk keys whose `delete` raises). -/
structure World where
  chunks : Store
  persisted : Store
  saveFails : Bool
  failDeletes : List String
deriving DecidableEq

/-- Result of `collect`: a Python call either returns a value or raises,
and in both cases the side effects performed so far remain. -/
inductive CollectResult where
  | ok (name : String) (w : World)
  | error (e : UploadError) (w : World)
deriving DecidableEq

/-- `ResumableFile.collect`: merge (`self.file`, which checks
completeness first), resolve the persistent name, save the merged bytes
(the persistent `save` resolves the name through `get_available_name`
again and returns the name actually used), then delete the chunks.
The `UploadedFile` wrapper of the source only carries metadata
(declared name, content type, declared size) past the storage API and
does not affect the persisted bytes, so it is not modelled. -/
def ResumableFile.collect (r : ResumableFile) (w : World) : CollectResult :=
  match r.file w.chunks with
  | Except.error e => CollectResult.error e w
  | Except.ok content =>
    match r.storage_filename (storeKeys w.persisted) with
    | Except.error e => CollectResult.error e w
    | Except.ok name =>
      if w.saveFails then CollectResult.error (UploadError.storage "save" name) w
      else
        let actual := availableName (storeKeys w.persisted) name
        let w1 : World := { w with persisted := (actual, content) :: w.persisted }
        match r.delete_chunks w.failDeletes w1.chunks with
        | (some e, cs2) => CollectResult.error e { w1 with chunks := cs2 }
        | (none, cs2) => CollectResult.ok actual { w1 with chunks := cs2 }

/-! ## Statement-level definitions -/

/-- Request parameters of one chunk upload of a file of declared total
size `sz?` (`none` = parameter absent), declared name `fname`, chunk
number `num`. -/
def mkParams (sz? : Option Nat) (fname : String) (num : Nat) : Params :=
  { resumableFilename := some fname
    resumableTotalSize := sz?
    resumableChunkNumber := some num
    resumableCurrentChunkSize := none
    resumableType := none }

/-- A `ResumableFile` for one chunk request. -/
def mkRFile (sz? : Option Nat) (fname : String) (uid : Option Nat) (upTo : UploadTo)
    (num : Nat) : ResumableFile :=
  { uploadTo := upTo, userId := uid, params := mkParams sz? fname num }

/-- A failure-free world over a given chunk store and empty persistent
store. -/
def mkWorld (cs : Store) : World :=
  { chunks := cs, persisted := [], saveFails := false, failDeletes := [] }

/-- Upload the given chunks (chunk number, bytes) in the given arrival
order, starting from chunk store `cs`. -/
def processAll (sz? : Option Nat) (fname : String) (uid : Option Nat) (upTo : UploadTo)
    (cs : Store) : List (Nat × List Nat) → Except UploadError Store
  | [] => Except.ok cs
  | c :: rest =>
    match (mkRFile sz? fname uid upTo c.1).process_chunk cs c.2 with
    | Except.error e => Except.error e
    | Except.ok cs1 => processAll sz? fname uid upTo cs1 rest

/-- Insert into a list of (chunk number, bytes) sorted by number. -/
def insertNum (x : Nat × List Nat) : List (Nat × List Nat) → List (Nat × List Nat)
  | [] => [x]
  | y :: ys => if x.1 ≤ y.1 then x :: y :: ys else y :: insertNum x ys

/-- Sort chunks by ascending chunk number. -/
def sortByNum : List (Nat × List Nat) → List (Nat × List Nat)
  | [] => []
  | x :: xs => insertNum x (sortByNum xs)

/-- Concatenation of a list of byte strings. -/
def joinAll (ls : List (List Nat)) : List Nat := ls.foldr (fun a b => a ++ b) []

/-- The bytes of the chunks concatenated in ascending
chunk-sequence-number order: what the spec says a commit must persist. -/
def seqConcat (chunkList : List (Nat × List Nat)) : List Nat :=
  joinAll ((sortByNum chunkList).map (fun c => c.2))

/-- `s` contains no glob metacharacter (`*`, `?`, `[`). -/
def noGlobMeta (s : String) : Bool :=
  s.data.all (fun c => ! decide (c = '*') && ! decide (c = '?') && ! decide (c = '['))

/-- The logical file key `"{totalSize}_{basename(filename)}"` of an
upload with declared size `sz` and declared name `fname`. -/
def mkKey (sz : Nat) (fname : String) : String := natToDec sz ++ "_" ++ pyBasename fname

/-- The chunk directory `chunks/<user dir>` (default settings). -/
def chunkDirOf (uid : Option Nat) : String := pjoin "chunks" (userDirOf uid)

/-- The base (directory-less) file name of chunk number `n`. -/
def mkBase (sz : Nat) (fname : String) (n : Nat) : String :=
  mkKey sz fname ++ chunkSuffix ++ zfill 4 (natToDec n)

/-- The full chunk key of chunk number `n` of an upload. -/
def mkChunkName (sz : Nat) (fname : String) (uid : Option Nat) (n : Nat) : String :=
  pjoin (chunkDirOf uid) (mkBase sz fname n)

/-- The four zero-padded decimal digit characters of `n ≤ 9999`. -/
def dec4 (n : Nat) : List Char :=
  [dig (n / 1000), dig (n / 100 % 10), dig (n / 10 % 10), dig (n % 10)]

/-! ## Lexicographic order infrastructure -/

theorem charsLt_irrefl : ∀ (l : List Char), charsLt l l = false := by
  intro l
  induction l with
  | nil => rfl
  | cons x xs ih => simp [charsLt, lt_irrefl, ih]

theorem charsLt_trans : ∀ (a b c : List Char),
    charsLt a b = true → charsLt b c = true → charsLt a c = true := by
  intro a
  induction a with
  | nil =>
    intro b c h1 h2
    cases b with
    | nil => simp [charsLt] at h1
    | cons y ys =>
      cases c with
      | nil => simp [charsLt] at h2
      | cons z zs => simp [charsLt]
  | cons x xs ih =>
    intro b c h1 h2
    cases b with
    | nil => simp [charsLt] at h1
    | cons y ys =>
      cases c with
      | nil => simp [charsLt] at h2
      | cons z zs =>
        simp only [charsLt] at h1 h2 ⊢
        rcases lt_trichotomy x y with hxy | hxy | hxy
        · rcases lt_trichotomy y z with hyz | hyz | hyz
          · simp [lt_trans hxy hyz]
          · subst hyz; simp [hxy]
          · simp [lt_asymm hyz, hyz] at h2
        · subst hxy
          rcases lt_trichotomy x z with hxz | hxz | hxz
          · simp [hxz]
          · subst hxz
            simp only [lt_irrefl, if_false] at h1 h2 ⊢
            exact ih _ _ h1 h2
          · simp [lt_asymm hxz, hxz] at h2
        · simp [lt_asymm hxy, hxy] at h1

theorem charsLt_asymm (a b : List Char) (h : charsLt a b = true) : charsLt b a = false := by
  by_contra hc
  have hba : charsLt b a = true := by
    cases hx : charsLt b a with
    | false => exact absurd hx hc
    | true => rfl
  have := charsLt_trans a b a h hba
  rw [charsLt_irrefl] at this
  exact Bool.noConfusion this

theorem charsLt_conn : ∀ (a b : List Char),
    charsLt a b = false → charsLt b a = false → a = b := by
  intro a
  induction a with
  | nil =>
    intro b h1 _
    cases b with
    | nil => rfl
    | cons y ys => simp [charsLt] at h1
  | cons x xs ih =>
    intro b h1 h2
    cases b with
    | nil => simp [charsLt] at h2
    | cons y ys =>
      simp only [charsLt] at h1 h2
      rcases lt_trichotomy x y with hxy | hxy | hxy
      · simp [hxy] at h1
      · subst hxy
        simp only [lt_irrefl, if_false] at h1 h2
        rw [ih ys h1 h2]
      · simp [hxy] at h2

theorem charsLt_append_left : ∀ (p a b : List Char),
    charsLt a b = true → charsLt (p ++ a) (p ++ b) = true := by
  intro p
  induction p with
  | nil => intro a b h; simpa using h
  | cons c cs ih => intro a b h; simp [charsLt, lt_irrefl, ih a b h]

theorem strLe_refl (a : String) : strLe a a = true := by
  simp [strLe, charsLt_irrefl]

theorem strLe_total (a b : String) : strLe a b = true ∨ strLe b a = true := by
  by_cases h : charsLt b.data a.data = true
  · right; simp [strLe, charsLt_asymm _ _ h]
  · left
    simp only [strLe]
    cases hx : charsLt b.data a.data with
    | false => rfl
    | true => exact absurd hx h

theorem strLe_trans (a b c : String) (h1 : strLe a b = true) (h2 : strLe b c = true) :
    strLe a c = true := by
  simp only [strLe, Bool.not_eq_true'] at h1 h2 ⊢
  cases hx : charsLt c.data a.data with
  | false => rfl
  | true =>
    cases hy : charsLt a.data b.data with
    | true =>
      have := charsLt_trans _ _ _ hx hy
      rw [h2] at this
      exact Bool.noConfusion this
    | false =>
      have hab := charsLt_conn a.data b.data hy h1
      rw [hab] at hx
      rw [h2] at hx
      exact Bool.noConfusion hx

theorem strLe_antisymm (a b : String) (h1 : strLe a b = true) (h2 : strLe b a = true) :
    a = b := by
  simp only [strLe, Bool.not_eq_true'] at h1 h2
  have := charsLt_conn a.data b.data h2 h1
  exact congrArg String.mk this

theorem strLe_of_charsLt (a b : String) (h : charsLt a.data b.data = true) :
    strLe a b = true := by
  simp [strLe, charsLt_asymm _ _ h]

theorem insertStr_perm (x : String) (l : List String) : (insertStr x l).Perm (x :: l) := by
  induction l with
  | nil => simp [insertStr]
  | cons y ys ih =>
    simp only [insertStr]
    by_cases h : strLe x y = true
    · simp [h]
    · simp only [h, if_false]
      exact ((ih.cons y).trans (List.Perm.swap x y ys))

theorem pySorted_perm (l : List String) : (pySorted l).Perm l := by
  induction l with
  | nil => simp [pySorted]
  | cons x xs ih => exact (insertStr_perm x (pySorted xs)).trans (ih.cons x)

theorem insertStr_pairwise (x : String) (l : List String)
    (h : l.Pairwise strLeP) : (insertStr x l).Pairwise strLeP := by
  induction l with
  | nil => simp [insertStr, List.Pairwise]
  | cons y ys ih =>
    simp only [insertStr]
    rcases List.pairwise_cons.mp h with ⟨hy, hys⟩
    by_cases hxy : strLe x y = true
    · simp only [hxy, if_true]
      refine List.pairwise_cons.mpr ⟨?_, h⟩
      intro z hz
      rcases List.mem_cons.mp hz with hz1 | hz1
      · subst hz1; exact hxy
      · exact strLe_trans _ _ _ hxy (hy z hz1)
    · simp only [hxy, if_false]
      refine List.pairwise_cons.mpr ⟨?_, ih hys⟩
      intro z hz
      have hz' := (insertStr_perm x ys).mem_iff.mp hz
      rcases List.mem_cons.mp hz' with hz1 | hz1
      · rw [hz1]
        rcases strLe_total x y with h' | h'
        · exact absurd h' hxy
        · exact h'
      · exact hy z hz1

theorem pySorted_pairwise (l : List String) : (pySorted l).Pairwise strLeP := by
  induction l with
  | nil => simp [pySorted]
  | cons x xs ih => exact insertStr_pairwise x (pySorted xs) ih

/-- Sorted permutations of strings agree: `pySorted` output is the
unique `strLeP`-sorted arrangement. -/
theorem sorted_strings_unique (l₁ l₂ : List String) (hp : l₁.Perm l₂)
    (h₁ : l₁.Pairwise strLeP) (h₂ : l₂.Pairwise strLeP) : l₁ = l₂ := by
  haveI : IsAntisymm String strLeP := ⟨fun a b h1 h2 => strLe_antisymm a b h1 h2⟩
  exact List.eq_of_perm_of_sorted hp h₁ h₂

/-! ## Glob matching lemmas -/

theorem globStar_of_nil (k : List Char → Bool) (h : k [] = true) :
    ∀ s, globStar k s = true := by
  intro s
  induction s with
  | nil => simpa [globStar] using h
  | cons c cs ih => simp [globStar, ih]

theorem globMatch_star_nil (s : List Char) : globMatch ['*'] s = true := by
  simp only [globMatch, if_true]
  exact globStar_of_nil _ rfl s

/-- On a pattern made of a metacharacter-free literal followed by a
single `*`, glob matching is exactly prefix testing. -/
theorem globMatch_append_star : ∀ (lit : List Char),
    (∀ c ∈ lit, ¬ c = '*' ∧ ¬ c = '?') →
    ∀ s, globMatch (lit ++ ['*']) s = lit.isPrefixOf s := by
  intro lit
  induction lit with
  | nil =>
    intro _ s
    simpa [List.isPrefixOf] using globMatch_star_nil s
  | cons c cs ih =>
    intro h s
    have hc := h c (List.mem_cons_self c cs)
    have hcs : ∀ x ∈ cs, ¬ x = '*' ∧ ¬ x = '?' :=
      fun x hx => h x (List.mem_cons_of_mem c hx)
    cases s with
    | nil => simp [globMatch, hc.1, hc.2, List.isPrefixOf]
    | cons d ds => simp [globMatch, hc.1, hc.2, List.isPrefixOf, ih hcs ds]

theorem isPrefixOf_append_self : ∀ (l t : List Char), l.isPrefixOf (l ++ t) = true := by
  intro l t
  induction l with
  | nil => simp [List.isPrefixOf]
  | cons c cs ih => simp [List.isPrefixOf, ih]

theorem noGlobMeta_spec (s : String) (h : noGlobMeta s = true) :
    ∀ c ∈ s.data, ¬ c = '*' ∧ ¬ c = '?' ∧ ¬ c = '[' := by
  intro c hc
  have := List.all_eq_true.mp h c hc
  simpa [Bool.and_eq_true, Bool.not_eq_true', decide_eq_false_iff_not, and_assoc] using this

/-- The pattern `chunk_names` builds from a metacharacter-free logical
file key matches exactly the strings extending `key ++ "_part_"`. -/
theorem fnmatch_key_eq_isPrefixOf (key f : String) (hk : noGlobMeta key = true) :
    fnmatch f (key ++ chunkSuffix ++ "*") =
      (key ++ chunkSuffix).data.isPrefixOf f.data := by
  have hsuffix : ∀ c ∈ chunkSuffix.data, ¬ c = '*' ∧ ¬ c = '?' := by decide
  have hlit : ∀ c ∈ (key ++ chunkSuffix).data, ¬ c = '*' ∧ ¬ c = '?' := by
    intro c hc
    rw [String.data_append] at hc
    rcases List.mem_append.mp hc with hc1 | hc1
    · exact ⟨(noGlobMeta_spec key hk c hc1).1, (noGlobMeta_spec key hk c hc1).2.1⟩
    · exact hsuffix c hc1
  have hdata : (key ++ chunkSuffix ++ "*").data = (key ++ chunkSuffix).data ++ ['*'] := by
    rw [String.data_append]
  rw [fnmatch, hdata, globMatch_append_star _ hlit]

/-! ## Decimal rendering lemmas -/

theorem decDigitsAux_small (fuel n : Nat) (h : n < 10) (hf : 0 < fuel) :
    decDigitsAux fuel n = [dig n] := by
  cases fuel with
  | zero => omega
  | succ f => simp [decDigitsAux, h]

theorem decDigitsAux_congr : ∀ (n f1 f2 : Nat), n < f1 → n < f2 →
    decDigitsAux f1 n = decDigitsAux f2 n := by
  intro n
  induction n using Nat.strong_induction_on with
  | _ n ih =>
    intro f1 f2 h1 h2
    cases f1 with
    | zero => omega
    | succ g1 =>
      cases f2 with
      | zero => omega
      | succ g2 =>
        by_cases h10 : n < 10
        · simp [decDigitsAux, h10]
        · simp only [decDigitsAux, if_neg h10]
          congr 1
          exact ih (n / 10) (by omega) g1 g2 (by omega) (by omega)

theorem decDigits_lt10 (n : Nat) (h : n < 10) : decDigits n = [dig n] :=
  decDigitsAux_small _ _ h (by omega)

theorem decDigits_lt100 (n : Nat) (h1 : 10 ≤ n) (h2 : n < 100) :
    decDigits n = [dig (n / 10), dig (n % 10)] := by
  unfold decDigits
  simp only [decDigitsAux]
  rw [if_neg (show ¬ n < 10 by omega)]
  rw [decDigitsAux_small n (n / 10) (by omega) (by omega)]
  rfl

theorem decDigits_lt1000 (n : Nat) (h1 : 100 ≤ n) (h2 : n < 1000) :
    decDigits n = [dig (n / 100), dig (n / 10 % 10), dig (n % 10)] := by
  unfold decDigits
  simp only [decDigitsAux]
  rw [if_neg (show ¬ n < 10 by omega)]
  rw [decDigitsAux_congr (n / 10) n (n / 10 + 1) (by omega) (by omega)]
  rw [show decDigitsAux (n / 10 + 1) (n / 10) = decDigits (n / 10) from rfl]
  rw [decDigits_lt100 (n / 10) (by omega) (by omega)]
  have e1 : n / 10 / 10 = n / 100 := by omega
  rw [e1]
  rfl

theorem decDigits_lt10000 (n : Nat) (h1 : 1000 ≤ n) (h2 : n < 10000) :
    decDigits n = [dig (n / 1000), dig (n / 100 % 10), dig (n / 10 % 10), dig (n % 10)] := by
  unfold decDigits
  simp only [decDigitsAux]
  rw [if_neg (show ¬ n < 10 by omega)]
  rw [decDigitsAux_congr (n / 10) n (n / 10 + 1) (by omega) (by omega)]
  rw [show decDigitsAux (n / 10 + 1) (n / 10) = decDigits (n / 10) from rfl]
  rw [decDigits_lt1000 (n / 10) (by omega) (by omega)]
  have e1 : n / 10 / 100 = n / 1000 := by omega
  have e2 : n / 10 / 10 = n / 100 := by omega
  rw [e1, e2]
  rfl

/-- For `n ≤ 9999`, the zero-padded chunk-number string is exactly the
four decimal digits of `n`. -/
theorem zfill_natToDec_eq_dec4 (n : Nat) (h : n ≤ 9999) :
    (zfill 4 (natToDec n)).data = dec4 n := by
  by_cases h1 : n < 10
  · have e1 : n / 1000 = 0 := by omega
    have e2 : n / 100 % 10 = 0 := by omega
    have e3 : n / 10 % 10 = 0 := by omega
    have e4 : n % 10 = n := by omega
    rw [natToDec, decDigits_lt10 n h1, dec4, e1, e2, e3, e4]
    rfl
  · by_cases h2 : n < 100
    · have e1 : n / 1000 = 0 := by omega
      have e2 : n / 100 % 10 = 0 := by omega
      have e3 : n / 10 % 10 = n / 10 := by omega
      rw [natToDec, decDigits_lt100 n (by omega) h2, dec4, e1, e2, e3]
      rfl
    · by_cases h3 : n < 1000
      · have e1 : n / 1000 = 0 := by omega
        have e2 : n / 100 % 10 = n / 100 := by omega
        rw [natToDec, decDigits_lt1000 n (by omega) h3, dec4, e1, e2]
        rfl
      · rw [natToDec, decDigits_lt10000 n (by omega) (by omega), dec4]
        rfl

theorem dig_lt_dig (a b : Nat) (ha : a < 10) (hb : b < 10) (h : a < b) : dig a < dig b := by
  have key : ∀ a, a < 10 → ∀ b, b < 10 → a < b → dig a < dig b := by decide
  exact key a ha b hb h

/-- Strict monotonicity of the four-digit rendering on `[0, 9999]`:
chunk numbers up to the padding width order their digit strings
lexicographically. -/
theorem dec4_lt (m n : Nat) (hmn : m < n) (hn : n ≤ 9999) :
    charsLt (dec4 m) (dec4 n) = true := by
  have hm : m ≤ 9999 := by omega
  unfold dec4
  rcases lt_trichotomy (m / 1000) (n / 1000) with h1 | h1 | h1
  · simp [charsLt, dig_lt_dig _ _ (by omega) (by omega) h1]
  · rw [h1]
    simp only [charsLt, lt_irrefl, if_false]
    rcases lt_trichotomy (m / 100 % 10) (n / 100 % 10) with h2 | h2 | h2
    · simp [charsLt, dig_lt_dig _ _ (by omega) (by omega) h2]
    · rw [h2]
      simp only [charsLt, lt_irrefl, if_false]
      rcases lt_trichotomy (m / 10 % 10) (n / 10 % 10) with h3 | h3 | h3
      · simp [charsLt, dig_lt_dig _ _ (by omega) (by omega) h3]
      · rw [h3]
        simp only [charsLt, lt_irrefl, if_false]
        have h4 : m % 10 < n % 10 := by omega
        simp [charsLt, dig_lt_dig _ _ (by omega) (by omega) h4]
      · omega
    · omega
  · omega

theorem decDigitsAux_mem (fuel n : Nat) : ∀ c ∈ decDigitsAux fuel n, ∃ d, d < 10 ∧ c = dig d := by
  induction fuel generalizing n with
  | zero => intro c hc; simp [decDigitsAux] at hc
  | succ f ih =>
    intro c hc
    by_cases h : n < 10
    · simp [decDigitsAux, h] at hc
      exact ⟨n, h, hc⟩
    · simp only [decDigitsAux, if_neg h] at hc
      rcases List.mem_append.mp hc with hc1 | hc1
      · exact ih (n / 10) c hc1
      · simp at hc1
        exact ⟨n % 10, by omega, hc1⟩

theorem natToDec_digit (n : Nat) : ∀ c ∈ (natToDec n).data, ∃ d, d < 10 ∧ c = dig d :=
  fun c hc => decDigitsAux_mem _ _ c hc

theorem dig_props : ∀ d, d < 10 → dig d ≠ '/' ∧ dig d ≠ '*' ∧ dig d ≠ '?' ∧ dig d ≠ '[' := by
  decide

theorem decDigitsAux_ne_nil (fuel n : Nat) (hf : 0 < fuel) : decDigitsAux fuel n ≠ [] := by
  cases fuel with
  | zero => omega
  | succ f =>
    by_cases h : n < 10 <;> simp [decDigitsAux, h]

theorem natToDec_ne_nil (n : Nat) : (natToDec n).data ≠ [] :=
  decDigitsAux_ne_nil _ _ (by omega)

/-! ## Path splitting and joining lemmas -/

theorem takeWhile_append_stop {p : Char → Bool} : ∀ (l : List Char), (∀ c ∈ l, p c = true) →
    ∀ (d : Char), p d = false → ∀ (rest : List Char), (l ++ d :: rest).takeWhile p = l := by
  intro l
  induction l with
  | nil => intro _ d hd rest; simp [List.takeWhile_cons, hd]
  | cons x xs ih =>
    intro hl d hd rest
    have hx := hl x (List.mem_cons_self x xs)
    simp [List.takeWhile_cons, hx,
      ih (fun c hc => hl c (List.mem_cons_of_mem x hc)) d hd rest]

theorem take_append_cons : ∀ (l : List Char) (d : Char) (r : List Char),
    (l ++ d :: r).take (l.length + 1) = l ++ [d] := by
  intro l
  induction l with
  | nil => intro d r; simp
  | cons x xs ih => intro d r; simp [ih]

theorem pjoin_eq (a b : String) (ha : ¬ a = "") (hal : ¬ a.data.getLast? = some '/')
    (hb : ¬ b.data.head? = some '/') : pjoin a b = a ++ "/" ++ b := by
  simp [pjoin, ha, hal, hb]

theorem pathTail_append (A B : List Char) (hB : ∀ c ∈ B, ¬ c = '/') :
    pathTail (A ++ '/' :: B) = B := by
  unfold pathTail
  have h1 : (A ++ '/' :: B).reverse = B.reverse ++ '/' :: A.reverse := by
    simp [List.reverse_append]
  rw [h1, takeWhile_append_stop B.reverse
    (fun c hc => by simp [hB c (List.mem_reverse.mp hc)]) '/' (by simp) A.reverse,
    List.reverse_reverse]

theorem pathHead0_append (A B : List Char) (hB : ∀ c ∈ B, ¬ c = '/') :
    pathHead0 (A ++ '/' :: B) = A ++ ['/'] := by
  unfold pathHead0
  rw [pathTail_append A B hB]
  have h2 : (A ++ '/' :: B).length - B.length = A.length + 1 := by
    simp
    omega
  rw [h2, take_append_cons A '/' B]

theorem pathHead_append (A' : List Char) (z : Char) (hz : ¬ z = '/') (B : List Char)
    (hB : ∀ c ∈ B, ¬ c = '/') : pathHead ((A' ++ [z]) ++ '/' :: B) = A' ++ [z] := by
  unfold pathHead
  rw [pathHead0_append (A' ++ [z]) B hB]
  have hcond : (((A' ++ [z]) ++ ['/']).isEmpty ||
      ((A' ++ [z]) ++ ['/']).all (fun c => decide (c = '/'))) = false := by
    have hempty : ((A' ++ [z]) ++ ['/']).isEmpty = false := by simp
    have hall : ((A' ++ [z]) ++ ['/']).all (fun c => decide (c = '/')) = false := by
      cases hcase : ((A' ++ [z]) ++ ['/']).all (fun c => decide (c = '/')) with
      | false => rfl
      | true =>
        have hzmem : z ∈ (A' ++ [z]) ++ ['/'] := by simp
        have := List.all_eq_true.mp hcase z hzmem
        simp at this
        exact absurd this hz
    rw [hempty, hall]
    rfl
  rw [hcond]
  simp only [Bool.false_eq_true, if_false]
  have h3 : ((A' ++ [z]) ++ ['/']).reverse = '/' :: z :: A'.reverse := by
    simp [List.reverse_append]
  rw [h3]
  simp [List.dropWhile_cons, hz]

/-- `posixpath.split` undoes the join of a slash-free base name onto a
nonempty directory not ending in a slash. -/
theorem pySplitPath_join (dir base : String) (hd : dir.data ≠ [])
    (hdl : ¬ dir.data.getLast? = some '/') (hb : ∀ c ∈ base.data, ¬ c = '/') :
    pySplitPath (dir ++ "/" ++ base) = (dir, base) := by
  have hz : ¬ dir.data.getLast hd = '/' := by
    intro h
    apply hdl
    rw [List.getLast?_eq_getLast_of_ne_nil hd, h]
  have hdecomp : dir.data.dropLast ++ [dir.data.getLast hd] = dir.data :=
    List.dropLast_append_getLast hd
  have hdata : (dir ++ "/" ++ base).data =
      (dir.data.dropLast ++ [dir.data.getLast hd]) ++ '/' :: base.data := by
    rw [String.data_append, String.data_append, hdecomp, List.append_assoc]
    rfl
  unfold pySplitPath
  rw [hdata, pathHead_append _ _ hz _ hb, hdecomp, pathTail_append _ _ hb]

theorem pyBasename_no_slash (p : String) : ∀ c ∈ (pyBasename p).data, ¬ c = '/' := by
  intro c hc
  have hc2 : c ∈ p.data.reverse.takeWhile (fun x => ! decide (x = '/')) :=
    List.mem_reverse.mp hc
  have := List.mem_takeWhile_imp hc2
  simpa using this

/-! ## Store lemmas -/

theorem storeKeys_cons (e : String × List Nat) (rest : Store) :
    storeKeys (e :: rest) = e.1 :: storeKeys rest := rfl

theorem storeLookup_cons_self (k : String) (v : List Nat) (rest : Store) :
    storeLookup ((k, v) :: rest) k = some v := by
  simp [storeLookup]

theorem storeLookup_of_mem_nodup : ∀ (cs : Store), (storeKeys cs).Nodup →
    ∀ (k : String) (v : List Nat), (k, v) ∈ cs → storeLookup cs k = some v := by
  intro cs
  induction cs with
  | nil => intro _ k v hm; exact absurd hm (List.not_mem_nil _)
  | cons e rest ih =>
    intro hnd k v hm
    rw [storeKeys_cons] at hnd
    rcases List.nodup_cons.mp hnd with ⟨hnotin, hndrest⟩
    rcases List.mem_cons.mp hm with he | he
    · rw [← he]
      simp [storeLookup]
    · have hk : ¬ e.1 = k := by
        intro hek
        apply hnotin
        rw [hek]
        exact List.mem_map.mpr ⟨(k, v), he, rfl⟩
      simp only [storeLookup, if_neg hk]
      exact ih hndrest k v he

theorem deleteList_none_of (fails : List String) : ∀ (ns : List String) (cs : Store),
    (∀ n ∈ ns, n ∉ fails) →
    deleteList fails cs ns = (none, cs.filter (fun e => ! decide (e.1 ∈ ns))) := by
  intro ns
  induction ns with
  | nil =>
    intro cs _
    simp [deleteList]
  | cons k ks ih =>
    intro cs hf
    have hk := hf k (List.mem_cons_self k ks)
    simp only [deleteList, if_neg hk]
    rw [ih (storeErase cs k) (fun n hn => hf n (List.mem_cons_of_mem k hn))]
    refine congrArg (fun l => ((none : Option UploadError), l)) ?_
    unfold storeErase
    rw [List.filter_filter]
    apply List.filter_congr
    intro e _
    by_cases h1 : e.1 = k <;> by_cases h2 : e.1 ∈ ks <;> simp [h1, h2]

theorem deleteList_none_inv (fails : List String) : ∀ (ns : List String) (cs cs2 : Store),
    deleteList fails cs ns = (none, cs2) →
    cs2 = cs.filter (fun e => ! decide (e.1 ∈ ns)) := by
  intro ns
  induction ns with
  | nil =>
    intro cs cs2 h
    simp [deleteList] at h
    simp [← h]
  | cons k ks ih =>
    intro cs cs2 h
    by_cases hk : k ∈ fails
    · simp [deleteList, hk] at h
    · simp only [deleteList, if_neg hk] at h
      rw [ih (storeErase cs k) cs2 h]
      unfold storeErase
      rw [List.filter_filter]
      apply List.filter_congr
      intro e _
      by_cases h1 : e.1 = k <;> by_cases h2 : e.1 ∈ ks <;> simp [h1, h2]

theorem deleteList_head_fail (fails : List String) (cs : Store) (k : String)
    (ks : List String) (hk : k ∈ fails) :
    deleteList fails cs (k :: ks) = (some (UploadError.storage "delete" k), cs) := by
  simp [deleteList, hk]

theorem foldl_add_map (f : String → Nat) : ∀ (ns : List String) (acc : Nat),
    ns.foldl (fun a n => a + f n) acc = acc + (ns.map f).sum := by
  intro ns
  induction ns with
  | nil => intro acc; simp
  | cons x xs ih =>
    intro acc
    rw [List.foldl_cons, ih]
    simp [List.sum_cons]
    omega

theorem foldl_append_join : ∀ (ls : List (List Nat)) (acc : List Nat),
    ls.foldl (fun a p => a ++ p) acc = acc ++ joinAll ls := by
  intro ls
  induction ls with
  | nil => intro acc; simp [joinAll]
  | cons x xs ih =>
    intro acc
    rw [List.foldl_cons, ih]
    simp [joinAll, List.append_assoc]

/-! ## Sorting chunks by sequence number -/

theorem insertNum_perm (x : Nat × List Nat) (l : List (Nat × List Nat)) :
    (insertNum x l).Perm (x :: l) := by
  induction l with
  | nil => simp [insertNum]
  | cons y ys ih =>
    simp only [insertNum]
    by_cases h : x.1 ≤ y.1
    · simp [h]
    · simp only [h, if_false]
      exact ((ih.cons y).trans (List.Perm.swap x y ys))

theorem sortByNum_perm (l : List (Nat × List Nat)) : (sortByNum l).Perm l := by
  induction l with
  | nil => simp [sortByNum]
  | cons x xs ih => exact (insertNum_perm x (sortByNum xs)).trans (ih.cons x)

theorem insertNum_pairwise (x : Nat × List Nat) (l : List (Nat × List Nat))
    (h : l.Pairwise (fun a b => a.1 ≤ b.1)) :
    (insertNum x l).Pairwise (fun a b => a.1 ≤ b.1) := by
  induction l with
  | nil => simp [insertNum]
  | cons y ys ih =>
    simp only [insertNum]
    rcases List.pairwise_cons.mp h with ⟨hy, hys⟩
    by_cases hxy : x.1 ≤ y.1
    · simp only [hxy, if_true]
      refine List.pairwise_cons.mpr ⟨?_, h⟩
      intro z hz
      rcases List.mem_cons.mp hz with hz1 | hz1
      · rw [hz1]; exact hxy
      · exact le_trans hxy (hy z hz1)
    · simp only [hxy, if_false]
      refine List.pairwise_cons.mpr ⟨?_, ih hys⟩
      intro z hz
      have hz' := (insertNum_perm x ys).mem_iff.mp hz
      rcases List.mem_cons.mp hz' with hz1 | hz1
      · rw [hz1]; omega
      · exact hy z hz1

theorem sortByNum_pairwise (l : List (Nat × List Nat)) :
    (sortByNum l).Pairwise (fun a b => a.1 ≤ b.1) := by
  induction l with
  | nil => simp [sortByNum]
  | cons x xs ih => exact insertNum_pairwise x (sortByNum xs) ih

/-! ## Chunk naming lemmas -/

theorem filename_mk (sz : Nat) (fname : String) (uid : Option Nat) (upTo : UploadTo)
    (num : Nat) (h : ¬ pyBasename fname = "") :
    (mkRFile (some sz) fname uid upTo num).filename = Except.ok (mkKey sz fname) := by
  simp [ResumableFile.filename, mkRFile, mkParams, h, totalSizeStr, mkKey]

theorem current_chunk_name_mk (sz : Nat) (fname : String) (uid : Option Nat) (upTo : UploadTo)
    (num : Nat) (h : ¬ pyBasename fname = "") :
    (mkRFile (some sz) fname uid upTo num).current_chunk_name =
      Except.ok (mkChunkName sz fname uid num) := by
  unfold ResumableFile.current_chunk_name
  rw [filename_mk sz fname uid upTo num h]
  simp [mkRFile, mkParams, chunkNumberStr, mkChunkName, chunkDirOf, mkBase]

theorem mkKey_data (sz : Nat) (fname : String) :
    (mkKey sz fname).data = (natToDec sz).data ++ '_' :: (pyBasename fname).data := by
  rw [mkKey, String.data_append, String.data_append, List.append_assoc]
  rfl

theorem mkKey_no_slash (sz : Nat) (fname : String) : ∀ c ∈ (mkKey sz fname).data, ¬ c = '/' := by
  intro c hc
  rw [mkKey_data] at hc
  rcases List.mem_append.mp hc with h1 | h1
  · obtain ⟨d, hd, rfl⟩ := natToDec_digit sz c h1
    exact (dig_props d hd).1
  · rcases List.mem_cons.mp h1 with h2 | h2
    · rw [h2]; decide
    · exact pyBasename_no_slash fname c h2

theorem mkBase_data (sz : Nat) (fname : String) (n : Nat) : (mkBase sz fname n).data =
    (mkKey sz fname ++ chunkSuffix).data ++ (zfill 4 (natToDec n)).data := by
  rw [mkBase, String.data_append]

theorem zfill_data_cases (w : Nat) (s : String) :
    (zfill w s).data = List.replicate (w - s.length) '0' ++ s.data ∨ (zfill w s).data = s.data := by
  unfold zfill
  by_cases h : s.length < w
  · left
    rw [if_pos h, String.data_append]
  · right
    rw [if_neg h]

theorem mkBase_no_slash (sz : Nat) (fname : String) (n : Nat) :
    ∀ c ∈ (mkBase sz fname n).data, ¬ c = '/' := by
  intro c hc
  rw [mkBase_data] at hc
  rcases List.mem_append.mp hc with h1 | h1
  · rw [String.data_append] at h1
    rcases List.mem_append.mp h1 with h2 | h2
    · exact mkKey_no_slash sz fname c h2
    · have hsuffix : ∀ x ∈ chunkSuffix.data, ¬ x = '/' := by decide
      exact hsuffix c h2
  · rcases zfill_data_cases 4 (natToDec n) with he | he
    · rw [he] at h1
      rcases List.mem_append.mp h1 with h2 | h2
      · rw [List.eq_of_mem_replicate h2]; decide
      · obtain ⟨d, hd, rfl⟩ := natToDec_digit n c h2
        exact (dig_props d hd).1
    · rw [he] at h1
      obtain ⟨d, hd, rfl⟩ := natToDec_digit n c h1
      exact (dig_props d hd).1

theorem userDirOf_ne_nil (uid : Option Nat) : (userDirOf uid).data ≠ [] := by
  cases uid with
  | none => decide
  | some i =>
    rw [userDirOf, String.data_append]
    simp

theorem userDirOf_head (uid : Option Nat) : ¬ (userDirOf uid).data.head? = some '/' := by
  cases uid with
  | none => decide
  | some i =>
    rw [userDirOf, String.data_append]
    intro h
    simp at h

theorem userDirOf_getLast (uid : Option Nat) :
    ¬ (userDirOf uid).data.getLast? = some '/' := by
  cases uid with
  | none => decide
  | some i =>
    rw [userDirOf, String.data_append]
    rw [List.getLast?_append_of_ne_nil _ (natToDec_ne_nil i)]
    intro h
    have hne := natToDec_ne_nil i
    rw [List.getLast?_eq_getLast_of_ne_nil hne] at h
    have hmem := List.getLast_mem hne
    obtain ⟨d, hd, he⟩ := natToDec_digit i _ hmem
    rw [he] at h
    have := (dig_props d hd).1
    exact this (Option.some.inj h)

theorem chunkDirOf_eq (uid : Option Nat) :
    chunkDirOf uid = "chunks" ++ "/" ++ userDirOf uid := by
  unfold chunkDirOf
  apply pjoin_eq
  · decide
  · decide
  · exact userDirOf_head uid

theorem chunkDirOf_ne_nil (uid : Option Nat) : (chunkDirOf uid).data ≠ [] := by
  rw [chunkDirOf_eq, String.data_append]
  simp

theorem chunkDirOf_getLast (uid : Option Nat) :
    ¬ (chunkDirOf uid).data.getLast? = some '/' := by
  rw [chunkDirOf_eq, String.data_append,
    List.getLast?_append_of_ne_nil _ (userDirOf_ne_nil uid)]
  exact userDirOf_getLast uid

theorem mkBase_head (sz : Nat) (fname : String) (n : Nat) :
    ¬ (mkBase sz fname n).data.head? = some '/' := by
  have hne := natToDec_ne_nil sz
  obtain ⟨c, cs, hc⟩ : ∃ c cs, (natToDec sz).data = c :: cs := by
    cases h : (natToDec sz).data with
    | nil => exact absurd h hne
    | cons c cs => exact ⟨c, cs, rfl⟩
  have hdig : ∃ d, d < 10 ∧ c = dig d :=
    natToDec_digit sz c (by rw [hc]; exact List.mem_cons_self c cs)
  intro hcontra
  rw [mkBase_data, String.data_append, mkKey_data, hc] at hcontra
  simp [List.cons_append] at hcontra
  obtain ⟨d, hd, he⟩ := hdig
  rw [he] at hcontra
  exact (dig_props d hd).1 hcontra

theorem mkChunkName_eq (sz : Nat) (fname : String) (uid : Option Nat) (n : Nat) :
    mkChunkName sz fname uid n = chunkDirOf uid ++ "/" ++ mkBase sz fname n := by
  unfold mkChunkName
  apply pjoin_eq
  · intro h
    exact chunkDirOf_ne_nil uid (by rw [h])
  · exact chunkDirOf_getLast uid
  · exact mkBase_head sz fname n

theorem pySplitPath_mkChunkName (sz : Nat) (fname : String) (uid : Option Nat) (n : Nat) :
    pySplitPath (mkChunkName sz fname uid n) = (chunkDirOf uid, mkBase sz fname n) := by
  rw [mkChunkName_eq]
  exact pySplitPath_join _ _ (chunkDirOf_ne_nil uid) (chunkDirOf_getLast uid)
    (mkBase_no_slash sz fname n)

theorem mkChunkName_data (sz : Nat) (fname : String) (uid : Option Nat) (n : Nat) :
    (mkChunkName sz fname uid n).data =
      ((chunkDirOf uid).data ++ '/' :: (mkKey sz fname ++ chunkSuffix).data) ++
        (zfill 4 (natToDec n)).data := by
  rw [mkChunkName_eq, String.data_append, String.data_append, mkBase_data]
  simp [List.append_assoc]

theorem mkChunkName_charsLt (sz : Nat) (fname : String) (uid : Option Nat) (m n : Nat)
    (hmn : m < n) (hn : n ≤ 9999) :
    charsLt (mkChunkName sz fname uid m).data (mkChunkName sz fname uid n).data = true := by
  rw [mkChunkName_data, mkChunkName_data]
  apply charsLt_append_left
  rw [zfill_natToDec_eq_dec4 m (by omega), zfill_natToDec_eq_dec4 n hn]
  exact dec4_lt m n hmn hn

theorem mkChunkName_inj (sz : Nat) (fname : String) (uid : Option Nat) (m n : Nat)
    (hm : m ≤ 9999) (hn : n ≤ 9999)
    (h : mkChunkName sz fname uid m = mkChunkName sz fname uid n) : m = n := by
  rcases lt_trichotomy m n with hlt | he | hlt
  · have := mkChunkName_charsLt sz fname uid m n hlt hn
    rw [h, charsLt_irrefl] at this
    exact Bool.noConfusion this
  · exact he
  · have := mkChunkName_charsLt sz fname uid n m hlt hm
    rw [h, charsLt_irrefl] at this
    exact Bool.noConfusion this

theorem mkChunkName_strLe (sz : Nat) (fname : String) (uid : Option Nat) (m n : Nat)
    (hmn : m ≤ n) (hn : n ≤ 9999) :
    strLe (mkChunkName sz fname uid m) (mkChunkName sz fname uid n) = true := by
  rcases Nat.lt_or_ge m n with h | h
  · exact strLe_of_charsLt _ _ (mkChunkName_charsLt _ _ _ _ _ h hn)
  · have he : m = n := by omega
    rw [he]
    exact strLe_refl _

/-! ## Canonical chunk stores: the state after uploading a chunk set -/

theorem storeLookup_eq_none : ∀ (cs : Store) (k : String), ¬ k ∈ storeKeys cs →
    storeLookup cs k = none := by
  intro cs
  induction cs with
  | nil => intro k _; rfl
  | cons e rest ih =>
    intro k hk
    have h1 : ¬ e.1 = k := by
      intro he
      exact hk (by rw [storeKeys_cons, he]; exact List.mem_cons_self k _)
    simp only [storeLookup, if_neg h1]
    exact ih k (fun hm => hk (by rw [storeKeys_cons]; exact List.mem_cons_of_mem _ hm))

theorem noGlobMeta_mkKey (sz : Nat) (fname : String)
    (h : noGlobMeta (pyBasename fname) = true) : noGlobMeta (mkKey sz fname) = true := by
  apply List.all_eq_true.mpr
  intro c hc
  rw [mkKey_data] at hc
  rcases List.mem_append.mp hc with h1 | h1
  · obtain ⟨d, hd, rfl⟩ := natToDec_digit sz c h1
    have hp := dig_props d hd
    simp [hp.2.1, hp.2.2.1, hp.2.2.2]
  · rcases List.mem_cons.mp h1 with h2 | h2
    · rw [h2]; decide
    · exact List.all_eq_true.mp h c h2

theorem processAll_canonical (sz : Nat) (fname : String) (uid : Option Nat) (upTo : UploadTo)
    (hb : ¬ pyBasename fname = "") :
    ∀ (L : List (Nat × List Nat)) (cs : Store),
    (∀ c ∈ L, c.1 ≤ 9999) →
    (List.map (fun c => c.1) L).Nodup →
    (∀ c ∈ L, ¬ mkChunkName sz fname uid c.1 ∈ storeKeys cs) →
    processAll (some sz) fname uid upTo cs L =
      Except.ok ((L.map (fun c => (mkChunkName sz fname uid c.1, c.2))).reverse ++ cs) := by
  intro L
  induction L with
  | nil => intro cs _ _ _; simp [processAll]
  | cons c rest ih =>
    intro cs hle hnd hdisj
    have hname := current_chunk_name_mk sz fname uid upTo c.1 hb
    have hnotin := hdisj c (List.mem_cons_self c rest)
    have hlookup : storeLookup cs (mkChunkName sz fname uid c.1) = none :=
      storeLookup_eq_none cs _ hnotin
    have havail : availableName (storeKeys cs) (mkChunkName sz fname uid c.1) =
        mkChunkName sz fname uid c.1 := by
      unfold availableName
      rw [if_neg hnotin]
    rw [List.map_cons] at hnd
    rcases List.nodup_cons.mp hnd with ⟨hc1, hndrest⟩
    simp only [processAll, ResumableFile.process_chunk, hname, hlookup, Option.isSome_none,
      Bool.false_eq_true, if_false, havail]
    rw [ih ((mkChunkName sz fname uid c.1, c.2) :: cs)
      (fun x hx => hle x (List.mem_cons_of_mem c hx)) hndrest ?_]
    · simp [List.reverse_cons, List.append_assoc]
    · intro x hx hmem
      rw [storeKeys_cons] at hmem
      rcases List.mem_cons.mp hmem with h1 | h1
      · have hx1 : x.1 = c.1 :=
          mkChunkName_inj sz fname uid x.1 c.1 (hle x (List.mem_cons_of_mem c hx))
            (hle c (List.mem_cons_self c rest)) h1
        exact hc1 (by rw [← hx1]; exact List.mem_map.mpr ⟨x, hx, rfl⟩)
      · exact hdisj x (List.mem_cons_of_mem c hx) h1

theorem listdirFiles_canonical (sz : Nat) (fname : String) (uid : Option Nat) :
    ∀ (L : List (Nat × List Nat)),
    listdirFiles (L.map (fun c => (mkChunkName sz fname uid c.1, c.2))) (chunkDirOf uid) =
      L.map (fun c => mkBase sz fname c.1) := by
  intro L
  induction L with
  | nil => rfl
  | cons c rest ih =>
    simp only [List.map_cons, listdirFiles, List.filterMap_cons]
    rw [pySplitPath_mkChunkName]
    unfold listdirFiles at ih
    simp [ih]

theorem storeKeys_canonical (sz : Nat) (fname : String) (uid : Option Nat)
    (L : List (Nat × List Nat)) :
    storeKeys ((L.map (fun c => (mkChunkName sz fname uid c.1, c.2))).reverse) =
      (L.map (fun c => mkChunkName sz fname uid c.1)).reverse := by
  unfold storeKeys
  rw [List.map_reverse, List.map_map]
  rfl

theorem keys_nodup_canonical (sz : Nat) (fname : String) (uid : Option Nat)
    (L : List (Nat × List Nat)) (hle : ∀ c ∈ L, c.1 ≤ 9999)
    (hnd : (L.map (fun c => c.1)).Nodup) :
    (L.map (fun c => mkChunkName sz fname uid c.1)).Nodup := by
  have he : L.map (fun c => mkChunkName sz fname uid c.1) =
      (L.map (fun c => c.1)).map (fun n => mkChunkName sz fname uid n) := by
    rw [List.map_map]
    rfl
  rw [he]
  apply List.Nodup.map_on ?_ hnd
  intro x hx y hy hxy
  obtain ⟨cx, hcx, rfl⟩ := List.mem_map.mp hx
  obtain ⟨cy, hcy, rfl⟩ := List.mem_map.mp hy
  exact mkChunkName_inj sz fname uid _ _ (hle cx hcx) (hle cy hcy) hxy

theorem storeLookup_canonical (sz : Nat) (fname : String) (uid : Option Nat)
    (L : List (Nat × List Nat)) (hle : ∀ c ∈ L, c.1 ≤ 9999)
    (hnd : (L.map (fun c => c.1)).Nodup) (c : Nat × List Nat) (hc : c ∈ L) :
    storeLookup ((L.map (fun x => (mkChunkName sz fname uid x.1, x.2))).reverse)
      (mkChunkName sz fname uid c.1) = some c.2 := by
  apply storeLookup_of_mem_nodup
  · rw [storeKeys_canonical]
    exact List.nodup_reverse.mpr (keys_nodup_canonical sz fname uid L hle hnd)
  · exact List.mem_reverse.mpr (List.mem_map.mpr ⟨c, hc, rfl⟩)

theorem chunk_names_canonical (sz : Nat) (fname : String) (uid : Option Nat)
    (upTo : UploadTo) (num : Nat) (hb : ¬ pyBasename fname = "")
    (hmeta : noGlobMeta (pyBasename fname) = true)
    (L : List (Nat × List Nat)) (hle : ∀ c ∈ L, c.1 ≤ 9999) :
    (mkRFile (some sz) fname uid upTo num).chunk_names
        ((L.map (fun c => (mkChunkName sz fname uid c.1, c.2))).reverse) =
      Except.ok ((sortByNum L).map (fun c => mkChunkName sz fname uid c.1)) := by
  unfold ResumableFile.chunk_names
  rw [filename_mk sz fname uid upTo num hb, current_chunk_name_mk sz fname uid upTo num hb]
  dsimp only
  rw [pySplitPath_mkChunkName]
  dsimp only
  have h1 : listdirFiles ((L.map (fun c => (mkChunkName sz fname uid c.1, c.2))).reverse)
      (chunkDirOf uid) = (L.map (fun c => mkBase sz fname c.1)).reverse := by
    unfold listdirFiles
    rw [List.filterMap_reverse]
    have h2 := listdirFiles_canonical sz fname uid L
    unfold listdirFiles at h2
    rw [h2]
  rw [h1]
  have h3 : ((L.map (fun c => mkBase sz fname c.1)).reverse).filter
      (fun file => fnmatch file (mkKey sz fname ++ chunkSuffix ++ "*")) =
      (L.map (fun c => mkBase sz fname c.1)).reverse := by
    apply List.filter_eq_self.mpr
    intro a ha
    obtain ⟨c, hc, he⟩ := List.mem_map.mp (List.mem_reverse.mp ha)
    rw [← he, fnmatch_key_eq_isPrefixOf _ _ (noGlobMeta_mkKey sz fname hmeta), mkBase_data]
    exact isPrefixOf_append_self _ _
  rw [h3]
  have h4 : ((L.map (fun c => mkBase sz fname c.1)).reverse).map
      (fun file => pjoin (chunkDirOf uid) file) =
      (L.map (fun c => mkChunkName sz fname uid c.1)).reverse := by
    rw [List.map_reverse, List.map_map]
    rfl
  rw [h4]
  congr 1
  apply sorted_strings_unique
  · exact (pySorted_perm _).trans ((List.reverse_perm _).trans ((sortByNum_perm L).symm.map _))
  · exact pySorted_pairwise _
  · apply List.pairwise_map.mpr
    refine List.Pairwise.imp_of_mem ?_ (sortByNum_pairwise L)
    intro a b ha hb hab
    have hb' := (sortByNum_perm L).mem_iff.mp hb
    exact mkChunkName_strLe sz fname uid a.1 b.1 hab (hle b hb')

theorem availableName_nil (name : String) : availableName [] name = name := by
  unfold availableName
  rw [if_neg (List.not_mem_nil name)]

theorem size_canonical (sz : Nat) (fname : String) (uid : Option Nat) (upTo : UploadTo)
    (num : Nat) (hb : ¬ pyBasename fname = "") (hmeta : noGlobMeta (pyBasename fname) = true)
    (L : List (Nat × List Nat)) (hle : ∀ c ∈ L, c.1 ≤ 9999)
    (hnd : (L.map (fun c => c.1)).Nodup) :
    (mkRFile (some sz) fname uid upTo num).size
        ((L.map (fun c => (mkChunkName sz fname uid c.1, c.2))).reverse) =
      Except.ok ((L.map (fun c => c.2.length)).sum) := by
  unfold ResumableFile.size
  rw [chunk_names_canonical sz fname uid upTo num hb hmeta L hle]
  dsimp only
  congr 1
  rw [foldl_add_map]
  simp only [Nat.zero_add]
  rw [List.map_map]
  have hpt : ∀ c ∈ sortByNum L,
      ((fun n => storeSize ((L.map (fun x => (mkChunkName sz fname uid x.1, x.2))).reverse) n) ∘
        (fun c => mkChunkName sz fname uid c.1)) c = c.2.length := by
    intro c hc
    unfold storeSize
    show ((storeLookup _ (mkChunkName sz fname uid c.1)).getD []).length = c.2.length
    rw [storeLookup_canonical sz fname uid L hle hnd c ((sortByNum_perm L).mem_iff.mp hc)]
    rfl
  rw [List.map_congr_left hpt]
  exact ((sortByNum_perm L).map (fun c => c.2.length)).sum_eq

theorem is_complete_canonical (sz : Nat) (fname : String) (uid : Option Nat) (upTo : UploadTo)
    (num : Nat) (hb : ¬ pyBasename fname = "") (hmeta : noGlobMeta (pyBasename fname) = true)
    (L : List (Nat × List Nat)) (hle : ∀ c ∈ L, c.1 ≤ 9999)
    (hnd : (L.map (fun c => c.1)).Nodup)
    (hsum : (L.map (fun c => c.2.length)).sum = sz) :
    (mkRFile (some sz) fname uid upTo num).is_complete
        ((L.map (fun c => (mkChunkName sz fname uid c.1, c.2))).reverse) =
      Except.ok true := by
  unfold ResumableFile.is_complete
  rw [size_canonical sz fname uid upTo num hb hmeta L hle hnd]
  dsimp only
  rw [hsum]
  simp [mkRFile, mkParams, totalSizeInt]

theorem file_canonical (sz : Nat) (fname : String) (uid : Option Nat) (upTo : UploadTo)
    (num : Nat) (hb : ¬ pyBasename fname = "") (hmeta : noGlobMeta (pyBasename fname) = true)
    (L : List (Nat × List Nat)) (hle : ∀ c ∈ L, c.1 ≤ 9999)
    (hnd : (L.map (fun c => c.1)).Nodup)
    (hsum : (L.map (fun c => c.2.length)).sum = sz) :
    (mkRFile (some sz) fname uid upTo num).file
        ((L.map (fun c => (mkChunkName sz fname uid c.1, c.2))).reverse) =
      Except.ok (joinAll ((sortByNum L).map (fun c => c.2))) := by
  unfold ResumableFile.file
  rw [is_complete_canonical sz fname uid upTo num hb hmeta L hle hnd hsum]
  dsimp only
  unfold ResumableFile.chunks
  rw [chunk_names_canonical sz fname uid upTo num hb hmeta L hle]
  dsimp only
  rw [List.map_map]
  have hpt : ∀ c ∈ sortByNum L,
      ((fun n => storeContents ((L.map (fun x => (mkChunkName sz fname uid x.1, x.2))).reverse) n) ∘
        (fun c => mkChunkName sz fname uid c.1)) c = c.2 := by
    intro c hc
    unfold storeContents
    show (storeLookup _ (mkChunkName sz fname uid c.1)).getD [] = c.2
    rw [storeLookup_canonical sz fname uid L hle hnd c ((sortByNum_perm L).mem_iff.mp hc)]
    rfl
  rw [List.map_congr_left hpt, foldl_append_join]
  rfl

theorem collect_canonical (sz : Nat) (fname : String) (uid : Option Nat) (upDir : String)
    (hb : ¬ pyBasename fname = "") (hmeta : noGlobMeta (pyBasename fname) = true)
    (L : List (Nat × List Nat)) (hle : ∀ c ∈ L, c.1 ≤ 9999)
    (hnd : (L.map (fun c => c.1)).Nodup)
    (hsum : (L.map (fun c => c.2.length)).sum = sz) :
    (mkRFile (some sz) fname uid (UploadTo.str upDir) 1).collect
        (mkWorld ((L.map (fun c => (mkChunkName sz fname uid c.1, c.2))).reverse)) =
      CollectResult.ok (resolveStoragePath [] (pjoin upDir (mkKey sz fname)))
        { chunks := [],
          persisted := [(resolveStoragePath [] (pjoin upDir (mkKey sz fname)),
            joinAll ((sortByNum L).map (fun c => c.2)))],
          saveFails := false,
          failDeletes := [] } := by
  have hstore : (mkWorld ((L.map (fun c => (mkChunkName sz fname uid c.1, c.2))).reverse)).chunks =
      (L.map (fun c => (mkChunkName sz fname uid c.1, c.2))).reverse := rfl
  have hsf : (mkRFile (some sz) fname uid (UploadTo.str upDir) 1).storage_filename [] =
      Except.ok (resolveStoragePath [] (pjoin upDir (mkKey sz fname))) := by
    unfold ResumableFile.storage_filename
    rw [filename_mk sz fname uid (UploadTo.str upDir) 1 hb]
    rfl
  have hkeys : storeKeys ([] : Store) = [] := rfl
  have hdel : (mkRFile (some sz) fname uid (UploadTo.str upDir) 1).delete_chunks []
      ((L.map (fun c => (mkChunkName sz fname uid c.1, c.2))).reverse) = (none, []) := by
    unfold ResumableFile.delete_chunks
    rw [chunk_names_canonical sz fname uid (UploadTo.str upDir) 1 hb hmeta L hle]
    dsimp only
    rw [deleteList_none_of [] _ _ (fun n _ hmem => List.not_mem_nil n hmem)]
    refine congrArg (fun l => ((none : Option UploadError), l)) ?_
    apply List.filter_eq_nil_iff.mpr
    intro e he
    obtain ⟨c, hc, hece⟩ := List.mem_map.mp (List.mem_reverse.mp he)
    have hkey : e.1 = mkChunkName sz fname uid c.1 := by rw [← hece]
    have hmem : e.1 ∈ (sortByNum L).map (fun c => mkChunkName sz fname uid c.1) := by
      rw [hkey]
      exact List.mem_map.mpr ⟨c, (sortByNum_perm L).mem_iff.mpr hc, rfl⟩
    simp [hmem]
  unfold ResumableFile.collect
  rw [hstore, file_canonical sz fname uid (UploadTo.str upDir) 1 hb hmeta L hle hnd hsum]
  dsimp only [mkWorld]
  rw [hkeys, hsf]
  dsimp only
  rw [availableName_nil, hdel]
  rfl

/-! ## Permutation invariance of the sequence-ordered concatenation -/

theorem sortByNum_sorted_strict (L : List (Nat × List Nat))
    (hnd : (L.map (fun c => c.1)).Nodup) :
    (sortByNum L).Pairwise (fun a b => a.1 < b.1) := by
  have h1 := sortByNum_pairwise L
  have h2 : ((sortByNum L).map (fun c => c.1)).Nodup :=
    (((sortByNum_perm L).map (fun c => c.1)).nodup_iff).mpr hnd
  have h3 : (sortByNum L).Pairwise (fun a b => ¬ a.1 = b.1) := List.pairwise_map.mp h2
  exact (h1.and h3).imp (fun h => lt_of_le_of_ne h.1 h.2)

theorem sortByNum_eq_of_perm (L1 L2 : List (Nat × List Nat)) (hp : L1.Perm L2)
    (hnd : (L1.map (fun c => c.1)).Nodup) : sortByNum L1 = sortByNum L2 := by
  haveI : IsAntisymm (Nat × List Nat) (fun a b => a.1 < b.1) :=
    ⟨fun a b h1 h2 => absurd (lt_trans h1 h2) (lt_irrefl _)⟩
  have hnd2 : (L2.map (fun c => c.1)).Nodup := ((hp.map (fun c => c.1)).nodup_iff).mp hnd
  exact List.eq_of_perm_of_sorted
    ((sortByNum_perm L1).trans (hp.trans (sortByNum_perm L2).symm))
    (sortByNum_sorted_strict L1 hnd) (sortByNum_sorted_strict L2 hnd2)

theorem seqConcat_perm_invariant (L1 L2 : List (Nat × List Nat)) (hp : L1.Perm L2)
    (hnd : (L1.map (fun c => c.1)).Nodup) : seqConcat L2 = seqConcat L1 := by
  unfold seqConcat
  rw [sortByNum_eq_of_perm L1 L2 hp hnd]

/-! ## Claim C1 -/

set_option maxHeartbeats 2000000 in
/-- C1 (counterexample): the claim "storing a set of chunks whose
declared sizes sum to the declared total and committing yields the
concatenation in ascending chunk-sequence-number order" is false as
stated.  With chunks numbered 9999 and 10000 (declared total 2), the
zero-padding width of 4 makes `"..._part_10000"` sort lexicographically
before `"..._part_9999"`, so `collect` persists `[2, 1]`, not the
ascending-sequence concatenation `[1, 2]`. -/
theorem c1_counterexample :
    processAll (some 2) "a" none (UploadTo.str "") [] [(9999, [1]), (10000, [2])] =
      Except.ok [("chunks/anonymous/2_a_part_10000", [2]),
                 ("chunks/anonymous/2_a_part_9999", [1])] ∧
    (mkRFile (some 2) "a" none (UploadTo.str "") 1).collect
        (mkWorld [("chunks/anonymous/2_a_part_10000", [2]),
                  ("chunks/anonymous/2_a_part_9999", [1])]) =
      CollectResult.ok "2_a"
        { chunks := [], persisted := [("2_a", [2, 1])], saveFails := false, failDeletes := [] } ∧
    seqConcat [(9999, [1]), (10000, [2])] = [1, 2] ∧
    ([2, 1] : List Nat) ≠ [1, 2] :=
  ⟨rfl, rfl, rfl, by decide⟩

set_option maxHeartbeats 2000000 in
/-- C1 (amended): for every set of chunks with pairwise-distinct
sequence numbers that are at most 9999 (the zero-padding width of the
chunk keys), whose declared filename has a nonempty base name free of
glob metacharacters, and whose sizes sum to the declared total,
storing the chunks via `process_chunk` in any arrival order and then
committing via `collect` persists exactly the concatenation of the
chunk bytes in ascending chunk-sequence-number order, deletes every
chunk, and the persisted bytes do not depend on the arrival order. -/
theorem c1_amended_collect_merges_in_sequence_order
    (sz : Nat) (fname : String) (uid : Option Nat) (upDir : String)
    (chunkList : List (Nat × List Nat))
    (hbase : ¬ pyBasename fname = "")
    (hmeta : noGlobMeta (pyBasename fname) = true)
    (hnodup : (chunkList.map (fun c => c.1)).Nodup)
    (hle : ∀ c ∈ chunkList, c.1 ≤ 9999)
    (hsum : (chunkList.map (fun c => c.2.length)).sum = sz) :
    ∃ (cs : Store) (actual : String) (w : World),
      processAll (some sz) fname uid (UploadTo.str upDir) [] chunkList = Except.ok cs ∧
      (mkRFile (some sz) fname uid (UploadTo.str upDir) 1).collect (mkWorld cs) =
        CollectResult.ok actual w ∧
      storeLookup w.persisted actual = some (seqConcat chunkList) ∧
      w.chunks = [] ∧
      (∀ order2 : List (Nat × List Nat), chunkList.Perm order2 →
        seqConcat order2 = seqConcat chunkList) := by
  have hpa := processAll_canonical sz fname uid (UploadTo.str upDir) hbase chunkList []
    hle hnodup (fun c _ h => List.not_mem_nil _ h)
  rw [List.append_nil] at hpa
  have hcol := collect_canonical sz fname uid upDir hbase hmeta chunkList hle hnodup hsum
  exact ⟨_, _, _, hpa, hcol, by dsimp only; rw [storeLookup_cons_self]; rfl, rfl,
    fun order2 hp => seqConcat_perm_invariant chunkList order2 hp hnodup⟩

set_option maxHeartbeats 2000000 in
/-- C1 (witness): a concrete two-chunk upload, arriving out of order,
satisfying the amended theorem's hypotheses. -/
theorem c1_amended_witness :
    ∃ (cs : Store) (actual : String) (w : World),
      processAll (some 2) "b" none (UploadTo.str "") [] [(2, [6]), (1, [5])] = Except.ok cs ∧
      (mkRFile (some 2) "b" none (UploadTo.str "") 1).collect (mkWorld cs) =
        CollectResult.ok actual w ∧
      storeLookup w.persisted actual = some (seqConcat [(2, [6]), (1, [5])]) ∧
      w.chunks = [] ∧
      (∀ order2 : List (Nat × List Nat), [(2, [6]), (1, [5])].Perm order2 →
        seqConcat order2 = seqConcat [(2, [6]), (1, [5])]) :=
  c1_amended_collect_merges_in_sequence_order 2 "b" none "" [(2, [6]), (1, [5])]
    (by decide) (by decide) (by decide) (by decide) (by decide)

/-! ## Claim C2 -/

/-- C2: for every chunk-store state, `is_complete` returns true if and
only if the sum of the stored sizes of the chunk records listed for
the logical file equals the declared total size, and a strictly
smaller stored sum yields false. -/
theorem c2_is_complete_iff_size_sum (r : ResumableFile) (cs : Store) (ns : List String)
    (h : r.chunk_names cs = Except.ok ns) :
    (r.is_complete cs = Except.ok true ↔
      (ns.map (fun n => storeSize cs n)).sum = totalSizeInt r.params) ∧
    ((ns.map (fun n => storeSize cs n)).sum < totalSizeInt r.params →
      r.is_complete cs = Except.ok false) := by
  have hsize : r.size cs = Except.ok ((ns.map (fun n => storeSize cs n)).sum) := by
    unfold ResumableFile.size
    rw [h]
    dsimp only
    rw [foldl_add_map]
    simp
  refine ⟨?_, ?_⟩
  · unfold ResumableFile.is_complete
    rw [hsize]
    dsimp only
    constructor
    · intro he
      simp only [Except.ok.injEq, decide_eq_true_eq] at he
      omega
    · intro he
      simp only [Except.ok.injEq, decide_eq_true_eq]
      omega
  · intro hlt
    unfold ResumableFile.is_complete
    rw [hsize]
    dsimp only
    simp only [Except.ok.injEq, decide_eq_false_iff_not]
    omega

/-- C2 (witness): a 3-byte upload with two stored chunks of one byte
each (stored sum 2 < declared total 3) is not complete. -/
theorem c2_witness :
    (mkRFile (some 3) "c" none (UploadTo.str "") 1).is_complete
      [("chunks/anonymous/3_c_part_0001", [1]), ("chunks/anonymous/3_c_part_0002", [2])] =
      Except.ok false :=
  (c2_is_complete_iff_size_sum (mkRFile (some 3) "c" none (UploadTo.str "") 1)
    [("chunks/anonymous/3_c_part_0001", [1]), ("chunks/anonymous/3_c_part_0002", [2])]
    ["chunks/anonymous/3_c_part_0001", "chunks/anonymous/3_c_part_0002"] rfl).2 (by decide)

/-! ## Claim C3 -/

/-- C3: if the write of the merged stream to the persistent store
fails during `collect`, the storage error propagates to the caller and
the world — in particular the transient chunk store, hence the
completeness state — is unchanged: no chunk records are deleted. -/
theorem c3_save_failure_keeps_chunks (r : ResumableFile) (w : World)
    (content : List Nat) (name : String)
    (hfile : r.file w.chunks = Except.ok content)
    (hname : r.storage_filename (storeKeys w.persisted) = Except.ok name)
    (hfail : w.saveFails = true) :
    r.collect w = CollectResult.error (UploadError.storage "save" name) w := by
  unfold ResumableFile.collect
  rw [hfile, hname]
  dsimp only
  rw [hfail]
  rfl

/-- C3 (witness): a complete one-chunk upload whose persistent save
fails leaves the chunk store untouched and surfaces the error. -/
theorem c3_witness :
    (mkRFile (some 1) "c" none (UploadTo.str "") 1).collect
      { chunks := [("chunks/anonymous/1_c_part_0001", [9])], persisted := [],
        saveFails := true, failDeletes := [] } =
      CollectResult.error (UploadError.storage "save" "1_c")
        { chunks := [("chunks/anonymous/1_c_part_0001", [9])], persisted := [],
          saveFails := true, failDeletes := [] } :=
  c3_save_failure_keeps_chunks (mkRFile (some 1) "c" none (UploadTo.str "") 1)
    { chunks := [("chunks/anonymous/1_c_part_0001", [9])], persisted := [],
      saveFails := true, failDeletes := [] } [9] "1_c" rfl rfl rfl

/-! ## Claim C4 -/

/-- C4 (counterexample): `delete_chunks` is not best-effort.  With two
stored chunks and a failing delete on the first, the loop aborts: the
second chunk is NOT deleted (both remain), and `collect` raises the
storage error to the caller even though the persistent save had
already succeeded (the merged file `"2_b" ↦ [3, 4]` is in the
persistent store). -/
theorem c4_counterexample :
    (mkRFile (some 2) "b" none (UploadTo.str "") 1).collect
        { chunks := [("chunks/anonymous/2_b_part_0001", [3]),
                     ("chunks/anonymous/2_b_part_0002", [4])],
          persisted := [], saveFails := false,
          failDeletes := ["chunks/anonymous/2_b_part_0001"] } =
      CollectResult.error (UploadError.storage "delete" "chunks/anonymous/2_b_part_0001")
        { chunks := [("chunks/anonymous/2_b_part_0001", [3]),
                     ("chunks/anonymous/2_b_part_0002", [4])],
          persisted := [("2_b", [3, 4])], saveFails := false,
          failDeletes := ["chunks/anonymous/2_b_part_0001"] } ∧
    storeLookup [("chunks/anonymous/2_b_part_0001", [3]),
                 ("chunks/anonymous/2_b_part_0002", [4])]
      "chunks/anonymous/2_b_part_0002" = some [4] :=
  ⟨rfl, rfl⟩

/-- C4 (amended): if deleting the first listed chunk record fails
during cleanup, the exception propagates immediately out of `collect`
(the loop does not continue to the remaining records, which stay in
the chunk store), but the already-performed persistent write is not
rolled back: the merged file remains in the persistent store under the
resolved name. -/
theorem c4_amended_delete_failure_aborts (r : ResumableFile) (w : World)
    (content : List Nat) (name : String) (n0 : String) (rest : List String)
    (hfile : r.file w.chunks = Except.ok content)
    (hname : r.storage_filename (storeKeys w.persisted) = Except.ok name)
    (hsave : w.saveFails = false)
    (hns : r.chunk_names w.chunks = Except.ok (n0 :: rest))
    (hfailmem : n0 ∈ w.failDeletes) :
    r.collect w = CollectResult.error (UploadError.storage "delete" n0)
      { chunks := w.chunks,
        persisted := (availableName (storeKeys w.persisted) name, content) :: w.persisted,
        saveFails := false, failDeletes := w.failDeletes } := by
  unfold ResumableFile.collect
  rw [hfile, hname]
  dsimp only
  rw [hsave]
  simp only [Bool.false_eq_true, if_false]
  unfold ResumableFile.delete_chunks
  rw [hns]
  dsimp only
  rw [deleteList_head_fail w.failDeletes w.chunks n0 rest hfailmem]

/-- C4 (witness): a concrete run of the amended statement — delete of
the single chunk fails, remaining state keeps the chunk and the
persisted merge. -/
theorem c4_amended_witness :
    (mkRFile (some 1) "d" none (UploadTo.str "") 1).collect
      { chunks := [("chunks/anonymous/1_d_part_0001", [7])], persisted := [],
        saveFails := false, failDeletes := ["chunks/anonymous/1_d_part_0001"] } =
      CollectResult.error (UploadError.storage "delete" "chunks/anonymous/1_d_part_0001")
        { chunks := [("chunks/anonymous/1_d_part_0001", [7])],
          persisted := [("1_d", [7])], saveFails := false,
          failDeletes := ["chunks/anonymous/1_d_part_0001"] } :=
  c4_amended_delete_failure_aborts (mkRFile (some 1) "d" none (UploadTo.str "") 1)
    { chunks := [("chunks/anonymous/1_d_part_0001", [7])], persisted := [],
      saveFails := false, failDeletes := ["chunks/anonymous/1_d_part_0001"] }
    [7] "1_d" "chunks/anonymous/1_d_part_0001" [] rfl rfl rfl rfl (by decide)

/-! ## Claim C5 -/

/-- C5 (counterexample): `"../../etc/passwd"` is not rejected:
`os.path.basename` strips the directory components and the result
`"passwd"` is nonempty, so `filename` returns the key `"100_passwd"`
instead of raising the invalid-filename error. -/
theorem c5_counterexample :
    (mkRFile (some 100) "../../etc/passwd" none (UploadTo.str "") 1).filename =
      Except.ok "100_passwd" ∧
    ¬ ((mkRFile (some 100) "../../etc/passwd" none (UploadTo.str "") 1).filename =
      Except.error UploadError.invalidFilename) := by
  refine ⟨rfl, fun h => ?_⟩
  rw [show (mkRFile (some 100) "../../etc/passwd" none (UploadTo.str "") 1).filename =
    Except.ok "100_passwd" from rfl] at h
  exact Except.noConfusion h

/-- C5 (amended): sanitization strips directory components with
`basename` and fails with the invalid-filename error exactly when the
resulting base name is empty; a path-traversal input such as
`"../../etc/passwd"` is reduced to its base name and accepted.  The
produced key never contains a path separator. -/
theorem c5_amended_basename_sanitization (r : ResumableFile) :
    (r.filename = Except.error UploadError.invalidFilename ↔
      pyBasename (r.params.resumableFilename.getD "") = "") ∧
    (∀ f, r.filename = Except.ok f → ∀ c ∈ f.data, ¬ c = '/') := by
  have hchar : r.filename =
      if pyBasename (r.params.resumableFilename.getD "") = ""
      then Except.error UploadError.invalidFilename
      else Except.ok (totalSizeStr r.params ++ "_" ++
        pyBasename (r.params.resumableFilename.getD "")) := rfl
  constructor
  · rw [hchar]
    by_cases h : pyBasename (r.params.resumableFilename.getD "") = ""
    · simp [h]
    · simp only [if_neg h]
      exact ⟨fun he => Except.noConfusion he, fun he => absurd he h⟩
  · intro f hf c hc
    rw [hchar] at hf
    by_cases h : pyBasename (r.params.resumableFilename.getD "") = ""
    · rw [if_pos h] at hf
      exact Except.noConfusion hf
    · rw [if_neg h] at hf
      have hfe : totalSizeStr r.params ++ "_" ++
          pyBasename (r.params.resumableFilename.getD "") = f := by
        simpa only [Except.ok.injEq] using hf
      rw [← hfe, String.data_append, String.data_append] at hc
      rcases List.mem_append.mp hc with h1 | h1
      · rcases List.mem_append.mp h1 with h2 | h2
        · unfold totalSizeStr at h2
          cases hts : r.params.resumableTotalSize with
          | some n =>
            rw [hts] at h2
            obtain ⟨d, hd, rfl⟩ := natToDec_digit n c h2
            exact (dig_props d hd).1
          | none =>
            rw [hts] at h2
            rcases List.mem_singleton.mp h2 with rfl
            decide
        · rcases List.mem_singleton.mp h2 with rfl
          decide
      · exact pyBasename_no_slash _ c h1

/-- C5 (witness): the amended statement applied to the path-traversal
input — the filename call does not raise the invalid-filename error. -/
theorem c5_amended_witness :
    ¬ ((mkRFile (some 100) "../../etc/passwd" none (UploadTo.str "") 1).filename =
      Except.error UploadError.invalidFilename) :=
  fun h => absurd
    (((c5_amended_basename_sanitization
      (mkRFile (some 100) "../../etc/passwd" none (UploadTo.str "") 1)).1).mp h)
    (by decide)

/-! ## Claim C7 -/

/-- C7 (counterexample): chunk keys do not sort lexicographically in
sequence-number order for every pair `m < n`: with `m = 9999` and
`n = 10000` the `zfill(4)` padding no longer equalizes the digit count,
and the key for 10000 sorts strictly before the key for 9999. -/
theorem c7_counterexample :
    (9999 < 10000) ∧
    (mkRFile (some 1) "a" none (UploadTo.str "") 9999).current_chunk_name =
      Except.ok "chunks/anonymous/1_a_part_9999" ∧
    (mkRFile (some 1) "a" none (UploadTo.str "") 10000).current_chunk_name =
      Except.ok "chunks/anonymous/1_a_part_10000" ∧
    strLt "chunks/anonymous/1_a_part_9999" "chunks/anonymous/1_a_part_10000" = false ∧
    strLt "chunks/anonymous/1_a_part_10000" "chunks/anonymous/1_a_part_9999" = true :=
  ⟨by decide, rfl, rfl, by decide, by decide⟩

/-- C7 (amended): for every logical file and every pair of chunk
sequence numbers `m < n ≤ 9999` (within the `zfill(4)` padding width),
the chunk key derived for `m` sorts lexicographically strictly before
the chunk key derived for `n`; the order depends only on the numbers,
never on arrival order. -/
theorem c7_amended_chunk_keys_sorted (sz : Nat) (fname : String) (uid : Option Nat)
    (upTo : UploadTo) (m n : Nat) (hbase : ¬ pyBasename fname = "")
    (hmn : m < n) (hn : n ≤ 9999) :
    ∃ km kn,
      (mkRFile (some sz) fname uid upTo m).current_chunk_name = Except.ok km ∧
      (mkRFile (some sz) fname uid upTo n).current_chunk_name = Except.ok kn ∧
      strLt km kn = true :=
  ⟨mkChunkName sz fname uid m, mkChunkName sz fname uid n,
    current_chunk_name_mk sz fname uid upTo m hbase,
    current_chunk_name_mk sz fname uid upTo n hbase,
    mkChunkName_charsLt sz fname uid m n hmn hn⟩

/-- C7 (witness): chunk 3 of a concrete upload sorts before chunk 12. -/
theorem c7_amended_witness :
    ∃ km kn,
      (mkRFile (some 5) "e" none (UploadTo.str "") 3).current_chunk_name = Except.ok km ∧
      (mkRFile (some 5) "e" none (UploadTo.str "") 12).current_chunk_name = Except.ok kn ∧
      strLt km kn = true :=
  c7_amended_chunk_keys_sorted 5 "e" none (UploadTo.str "") 3 12 (by decide) (by decide)
    (by decide)

/-! ## Claim C8 -/

/-- C8 (counterexample): a static `upload_to` string containing the
date pattern `%Y` is used verbatim as a path prefix — `storage_filename`
performs no `strftime` expansion, so the persisted path still contains
the literal `%Y` (an expansion against any timestamp would have
replaced it with digits). -/
theorem c8_counterexample :
    (mkRFile (some 1) "a.txt" none (UploadTo.str "u/%Y") 1).storage_filename [] =
      Except.ok "u/%Y/1_a.txt" ∧
    '%' ∈ "u/%Y/1_a.txt".data :=
  ⟨rfl, by decide⟩

/-- C8 (amended): destination resolution dispatches on `upload_to`: a
static string is joined verbatim (no date expansion) with the
size-prefixed sanitized filename, a callable is invoked with that
filename, and anything else raises the configuration error
(`ValueError`); in the first two cases the resulting path's base name
is sanitized and resolved to an available name
(`resolveStoragePath`). -/
theorem c8_amended_destination_dispatch (r : ResumableFile) (keys : List String)
    (f : String) (hf : r.filename = Except.ok f) :
    (r.uploadTo = UploadTo.invalid →
      r.storage_filename keys = Except.error UploadError.configuration) ∧
    (∀ s, r.uploadTo = UploadTo.str s →
      r.storage_filename keys = Except.ok (resolveStoragePath keys (pjoin s f))) ∧
    (∀ g, r.uploadTo = UploadTo.call g →
      r.storage_filename keys = Except.ok (resolveStoragePath keys (g f))) := by
  refine ⟨?_, ?_, ?_⟩
  · intro hinv
    unfold ResumableFile.storage_filename
    rw [hf, hinv]
  · intro s hs
    unfold ResumableFile.storage_filename
    rw [hf, hs]
  · intro g hg
    unfold ResumableFile.storage_filename
    rw [hf, hg]

/-- C8 (witness): an `upload_to` that is neither a string nor a
callable makes `storage_filename` raise the configuration error. -/
theorem c8_amended_witness :
    (mkRFile (some 1) "a" none UploadTo.invalid 1).storage_filename [] =
      Except.error UploadError.configuration :=
  (c8_amended_destination_dispatch (mkRFile (some 1) "a" none UploadTo.invalid 1) []
    "1_a" rfl).1 rfl

/-! ## Claim C9 -/

/-- C9: `chunk_names` selects files by `fnmatch` glob matching of the
logical file key, not plain prefix comparison.  (i) For an upload whose
key contains no glob metacharacter, the listing is exactly the sorted,
directory-joined files extending the prefix `key ++ "_part_"`.
(ii) For the filename `"x*"` (key `"5_x*"`), the listing includes the
stored chunk `"chunks/anonymous/5_xyz_part_0001"` of the different
logical file `"5_xyz"`, a key that does not extend the prefix
`"5_x*_part_"`. -/
theorem c9_glob_listing :
    (∀ (r : ResumableFile) (cs : Store) (key ccn : String),
      r.filename = Except.ok key → noGlobMeta key = true →
      r.current_chunk_name = Except.ok ccn →
      r.chunk_names cs = Except.ok (pySorted
        (((listdirFiles cs (pySplitPath ccn).1).filter
          (fun f => (key ++ chunkSuffix).data.isPrefixOf f.data)).map
          (fun f => pjoin (pySplitPath ccn).1 f)))) ∧
    ((mkRFile (some 5) "x*" none (UploadTo.str "") 1).chunk_names
        [("chunks/anonymous/5_xyz_part_0001", [1, 2, 3, 4, 5])] =
      Except.ok ["chunks/anonymous/5_xyz_part_0001"] ∧
      ("5_x*" ++ chunkSuffix).data.isPrefixOf "5_xyz_part_0001".data = false) := by
  constructor
  · intro r cs key ccn hkey hmeta hccn
    unfold ResumableFile.chunk_names
    rw [hkey, hccn]
    dsimp only
    have hfc : (listdirFiles cs (pySplitPath ccn).1).filter
        (fun f => fnmatch f (key ++ chunkSuffix ++ "*")) =
        (listdirFiles cs (pySplitPath ccn).1).filter
        (fun f => (key ++ chunkSuffix).data.isPrefixOf f.data) :=
      List.filter_congr (fun f _ => fnmatch_key_eq_isPrefixOf key f hmeta)
    rw [hfc]
  · exact ⟨rfl, by decide⟩

/-- C9 (witness): part (i) applied to a metacharacter-free upload
(key `"7_doc"`) over a store holding its first chunk. -/
theorem c9_witness :
    (mkRFile (some 7) "doc" none (UploadTo.str "") 1).chunk_names
        [("chunks/anonymous/7_doc_part_0001", [1])] =
      Except.ok (pySorted
        (((listdirFiles [("chunks/anonymous/7_doc_part_0001", [1])]
          (pySplitPath "chunks/anonymous/7_doc_part_0001").1).filter
          (fun f => ("7_doc" ++ chunkSuffix).data.isPrefixOf f.data)).map
          (fun f => pjoin (pySplitPath "chunks/anonymous/7_doc_part_0001").1 f))) :=
  c9_glob_listing.1 (mkRFile (some 7) "doc" none (UploadTo.str "") 1)
    [("chunks/anonymous/7_doc_part_0001", [1])] "7_doc"
    "chunks/anonymous/7_doc_part_0001" rfl (by decide) rfl

/-! ## Claim C6 -/

/-- After the chunks listed by `chunk_names` are removed from a store
whose keys round-trip through `posixpath.split`/`join` (true of every
normalized storage path), a second listing for the same upload is
empty: every matching file was listed, hence deleted. -/
theorem chunk_names_after_filter (r : ResumableFile) (cs : Store) (f ccn : String)
    (ns : List String)
    (hfn : r.filename = Except.ok f)
    (hccn : r.current_chunk_name = Except.ok ccn)
    (hns : r.chunk_names cs = Except.ok ns)
    (hwf : ∀ e ∈ cs, pjoin (pySplitPath e.1).1 (pySplitPath e.1).2 = e.1) :
    r.chunk_names (cs.filter (fun e => ! decide (e.1 ∈ ns))) = Except.ok [] := by
  have hns' : ns = pySorted (((listdirFiles cs (pySplitPath ccn).1).filter
      (fun file => fnmatch file (f ++ chunkSuffix ++ "*"))).map
      (fun file => pjoin (pySplitPath ccn).1 file)) := by
    unfold ResumableFile.chunk_names at hns
    rw [hfn, hccn] at hns
    dsimp only at hns
    simpa only [Except.ok.injEq] using hns.symm
  unfold ResumableFile.chunk_names
  rw [hfn, hccn]
  dsimp only
  have hempty : (listdirFiles (cs.filter (fun e => ! decide (e.1 ∈ ns)))
      (pySplitPath ccn).1).filter
      (fun file => fnmatch file (f ++ chunkSuffix ++ "*")) = [] := by
    apply List.filter_eq_nil_iff.mpr
    intro file hfl
    unfold listdirFiles at hfl
    obtain ⟨e, he, hife⟩ := List.mem_filterMap.mp hfl
    by_cases hd : (pySplitPath e.1).1 = (pySplitPath ccn).1
    · rw [if_pos hd] at hife
      have hfile : (pySplitPath e.1).2 = file := Option.some.inj hife
      have hecs := List.mem_filter.mp he
      have hmem : e ∈ cs := hecs.1
      have hnot : e.1 ∉ ns := by
        have hb := hecs.2
        simpa using hb
      intro hmatch
      apply hnot
      rw [hns']
      apply (pySorted_perm _).mem_iff.mpr
      apply List.mem_map.mpr
      refine ⟨file, ?_, ?_⟩
      · apply List.mem_filter.mpr
        refine ⟨?_, hmatch⟩
        unfold listdirFiles
        exact List.mem_filterMap.mpr ⟨e, hmem, by rw [if_pos hd, hfile]⟩
      · rw [← hfile, ← hd]
        exact hwf e hmem
    · rw [if_neg hd] at hife
      exact Option.noConfusion hife
  rw [hempty]
  rfl

/-- C6: (i) merging (`file`) before completeness holds fails with the
incomplete-upload error (the completeness check precedes any chunk
read); (ii) for every upload with nonzero declared total size whose
chunk-store keys are normalized paths, a second `collect` invocation
right after a successful one fails with the incomplete-upload error —
the chunks are gone, the stored sum is 0 ≠ declared total — and leaves
the world unchanged, writing nothing further to the persistent store. -/
theorem c6_incomplete_merge_and_second_collect :
    (∀ (r : ResumableFile) (cs : Store), r.is_complete cs = Except.ok false →
      r.file cs = Except.error UploadError.incompleteUpload) ∧
    (∀ (r : ResumableFile) (w : World) (actual : String) (w1 : World),
      (∀ e ∈ w.chunks, pjoin (pySplitPath e.1).1 (pySplitPath e.1).2 = e.1) →
      totalSizeInt r.params ≠ 0 →
      r.collect w = CollectResult.ok actual w1 →
      r.collect w1 = CollectResult.error UploadError.incompleteUpload w1) := by
  constructor
  · intro r cs h
    unfold ResumableFile.file
    rw [h]
    rfl
  · intro r w actual w1 hwf htot hcol
    unfold ResumableFile.collect at hcol
    cases hfe : r.file w.chunks with
    | error e => rw [hfe] at hcol; exact CollectResult.noConfusion hcol
    | ok content =>
    rw [hfe] at hcol
    dsimp only at hcol
    cases hsf : r.storage_filename (storeKeys w.persisted) with
    | error e => rw [hsf] at hcol; exact CollectResult.noConfusion hcol
    | ok name =>
    rw [hsf] at hcol
    dsimp only at hcol
    cases hsv : w.saveFails with
    | true => rw [hsv] at hcol; simp at hcol
    | false =>
    rw [hsv] at hcol
    simp only [Bool.false_eq_true, if_false] at hcol
    cases hdc : r.delete_chunks w.failDeletes w.chunks with
    | mk o cs2 =>
    rw [hdc] at hcol
    cases o with
    | some e => dsimp only at hcol; exact CollectResult.noConfusion hcol
    | none =>
    dsimp only at hcol
    rw [CollectResult.ok.injEq] at hcol
    have hw1 : w1.chunks = cs2 := by rw [← hcol.2]
    unfold ResumableFile.delete_chunks at hdc
    cases hcn : r.chunk_names w.chunks with
    | error e => rw [hcn] at hdc; simp at hdc
    | ok ns =>
    rw [hcn] at hdc
    dsimp only at hdc
    have hcs2 : cs2 = w.chunks.filter (fun e => ! decide (e.1 ∈ ns)) :=
      deleteList_none_inv w.failDeletes ns w.chunks cs2 hdc
    have hfn_ccn : ∃ f ccn, r.filename = Except.ok f ∧
        r.current_chunk_name = Except.ok ccn := by
      unfold ResumableFile.chunk_names at hcn
      cases hf1 : r.filename with
      | error e => rw [hf1] at hcn; exact Except.noConfusion hcn
      | ok f =>
        rw [hf1] at hcn
        dsimp only at hcn
        cases hc1 : r.current_chunk_name with
        | error e => rw [hc1] at hcn; exact Except.noConfusion hcn
        | ok ccn => exact ⟨f, ccn, rfl, rfl⟩
    obtain ⟨f, ccn, hfn, hccn⟩ := hfn_ccn
    have hempty := chunk_names_after_filter r w.chunks f ccn ns hfn hccn hcn hwf
    rw [← hcs2, ← hw1] at hempty
    have hsize1 : r.size w1.chunks = Except.ok 0 := by
      unfold ResumableFile.size
      rw [hempty]
      rfl
    have hic1 : r.is_complete w1.chunks = Except.ok false := by
      unfold ResumableFile.is_complete
      rw [hsize1]
      dsimp only
      simp only [Except.ok.injEq, decide_eq_false_iff_not]
      omega
    have hfile1 : r.file w1.chunks = Except.error UploadError.incompleteUpload := by
      unfold ResumableFile.file
      rw [hic1]
      rfl
    unfold ResumableFile.collect
    rw [hfile1]

/-- C6 (witness): (i) a 5-byte upload with no chunks stored is not
mergeable; (ii) a completed and committed one-chunk upload whose
second `collect` fails cleanly with the incomplete-upload error. -/
theorem c6_witness :
    (mkRFile (some 5) "g" none (UploadTo.str "") 1).file [] =
      Except.error UploadError.incompleteUpload ∧
    (mkRFile (some 1) "h" none (UploadTo.str "") 1).collect
        { chunks := [], persisted := [("1_h", [9])], saveFails := false, failDeletes := [] } =
      CollectResult.error UploadError.incompleteUpload
        { chunks := [], persisted := [("1_h", [9])], saveFails := false, failDeletes := [] } :=
  ⟨c6_incomplete_merge_and_second_collect.1 (mkRFile (some 5) "g" none (UploadTo.str "") 1)
      [] rfl,
   c6_incomplete_merge_and_second_collect.2 (mkRFile (some 1) "h" none (UploadTo.str "") 1)
      (mkWorld [("chunks/anonymous/1_h_part_0001", [9])]) "1_h"
      { chunks := [], persisted := [("1_h", [9])], saveFails := false, failDeletes := [] }
      (by decide) (by decide) rfl⟩

/-! ## Claim C10 -/

/-- C10: when the declared total size is absent (defaulting to "0") or
declared as 0, an upload whose chunk store is empty is already complete
— `is_complete` compares the declared total with the sum over the (empty)
chunk listing, and 0 == 0 — so `collect` succeeds without any chunk data:
it persists an empty file under the generated storage name and leaves the
chunk store empty. The persistent store, failing-delete list and any prior
contents are arbitrary. -/
theorem c10_zero_total_commits_empty (fname : String) (uid : Option Nat)
    (upDir : String) (persisted : Store) (fails : List String) (sz? : Option Nat)
    (hbase : ¬ pyBasename fname = "")
    (hsz : sz? = none ∨ sz? = some 0) :
    (mkRFile sz? fname uid (UploadTo.str upDir) 1).is_complete [] = Except.ok true ∧
    ∃ actual w,
      (mkRFile sz? fname uid (UploadTo.str upDir) 1).collect
          { chunks := [], persisted := persisted, saveFails := false,
            failDeletes := fails } =
        CollectResult.ok actual w ∧
      storeLookup w.persisted actual = some [] ∧
      w.chunks = [] := by
  have h0 : totalSizeStr (mkParams sz? fname 1) = "0" := by
    rcases hsz with rfl | rfl
    · rfl
    · rfl
  have hti : totalSizeInt (mkParams sz? fname 1) = 0 := by
    rcases hsz with rfl | rfl
    · rfl
    · rfl
  have hfn : (mkRFile sz? fname uid (UploadTo.str upDir) 1).filename =
      Except.ok ("0" ++ "_" ++ pyBasename fname) := by
    have hstep : (mkRFile sz? fname uid (UploadTo.str upDir) 1).filename =
        if pyBasename fname = "" then Except.error UploadError.invalidFilename
        else Except.ok (totalSizeStr (mkParams sz? fname 1) ++ "_" ++ pyBasename fname) :=
      rfl
    rw [hstep, if_neg hbase, h0]
  have hcn : (mkRFile sz? fname uid (UploadTo.str upDir) 1).chunk_names [] =
      Except.ok [] := by
    unfold ResumableFile.chunk_names ResumableFile.current_chunk_name
    rw [hfn]
    rfl
  have hsz' : (mkRFile sz? fname uid (UploadTo.str upDir) 1).size [] = Except.ok 0 := by
    unfold ResumableFile.size
    rw [hcn]
    rfl
  have hic : (mkRFile sz? fname uid (UploadTo.str upDir) 1).is_complete [] =
      Except.ok true := by
    unfold ResumableFile.is_complete
    rw [hsz']
    dsimp only
    rw [show (mkRFile sz? fname uid (UploadTo.str upDir) 1).params =
      mkParams sz? fname 1 from rfl, hti]
    rfl
  have hfile : (mkRFile sz? fname uid (UploadTo.str upDir) 1).file [] =
      Except.ok [] := by
    unfold ResumableFile.file
    rw [hic]
    dsimp only
    unfold ResumableFile.chunks
    rw [hcn]
    rfl
  have hsf : (mkRFile sz? fname uid (UploadTo.str upDir) 1).storage_filename
      (storeKeys persisted) =
      Except.ok (resolveStoragePath (storeKeys persisted)
        (pjoin upDir ("0" ++ "_" ++ pyBasename fname))) := by
    unfold ResumableFile.storage_filename
    rw [hfn]
    rfl
  refine ⟨hic, availableName (storeKeys persisted)
      (resolveStoragePath (storeKeys persisted)
        (pjoin upDir ("0" ++ "_" ++ pyBasename fname))),
      { chunks := [],
        persisted := (availableName (storeKeys persisted)
          (resolveStoragePath (storeKeys persisted)
            (pjoin upDir ("0" ++ "_" ++ pyBasename fname))), []) :: persisted,
        saveFails := false, failDeletes := fails }, ?_, ?_, rfl⟩
  · unfold ResumableFile.collect
    dsimp only
    rw [hfile]
    dsimp only
    rw [hsf]
    dsimp only
    simp only [Bool.false_eq_true, if_false]
    unfold ResumableFile.delete_chunks
    rw [hcn]
    rfl
  · exact storeLookup_cons_self _ _ _

/-- C10 (witness): a declared total of 0 for "v.bin" with no stored
chunks and a nonempty persistent store commits immediately. -/
theorem c10_witness :
    ¬ pyBasename "v.bin" = "" ∧
    ((mkRFile (some 0) "v.bin" none (UploadTo.str "media") 1).is_complete [] =
        Except.ok true ∧
      ∃ actual w,
        (mkRFile (some 0) "v.bin" none (UploadTo.str "media") 1).collect
            { chunks := [], persisted := [("x", [1, 2])], saveFails := false,
              failDeletes := [] } =
          CollectResult.ok actual w ∧
        storeLookup w.persisted actual = some [] ∧
        w.chunks = []) :=
  ⟨by decide,
   c10_zero_total_commits_empty "v.bin" none "media" [("x", [1, 2])] [] (some 0)
     (by decide) (Or.inr rfl)⟩
